import Mathlib

/-!
Verification of the parallel connected-component labeling engine of
`src/coupler/util/connected_components.cc` (classes `ConnectedComponents` and
`SinkCC`).

The label raster is modelled as a total function `Nat → Nat → Nat` over global
grid coordinates `(i, j)`; the C++ code reads a neighbour `(i-1, j)` or
`(i, j-1)` only under a guard that makes the index nonnegative, so truncated
natural subtraction never changes a value the code actually uses.  The four
per-run arrays (`parents`, `lengths`, `i_vec`, `j_vec`, C++
`std::vector<double>` holding small nonnegative integers exactly) are modelled
as `List Nat` read with `List.getD` and written with `List.set`.

The grid iterator (`Points`) and the invocation driver (initial run counter
and array capacity) are not part of the excerpted sources; they are modelled
from the spec: a row-major scan over the owned tile (rows `j` outer, columns
`i` inner), run indices 0 and 1 reserved so the counter starts at 1.
-/

/-- The label raster (`m_mask_run`): one natural number per global cell. -/
def Mask : Type := Nat → Nat → Nat

/-- Point update of the raster. -/
def updMask (m : Mask) (i j v : Nat) : Mask :=
  fun a b => if a = i ∧ b = j then v else m a b

/-- The 4-neighbour star stencil (`StarStencil<int>`), west/east/south/north. -/
structure CellStar where
  w : Nat
  e : Nat
  s : Nat
  n : Nat

/-- Reading the star stencil from the raster (`m_mask_run.int_star(i, j)`). -/
def int_star (m : Mask) (i j : Nat) : CellStar :=
  ⟨m (i - 1) j, m (i + 1) j, m i (j - 1), m i (j + 1)⟩

/-- The per-run arrays of one invocation (the C++ `VecList` map with its four
fixed keys). -/
structure VecList where
  parents : List Nat
  lengths : List Nat
  i_vec : List Nat
  j_vec : List Nat

/-- `ConnectedComponents::init_VecList`: four arrays of `size` zeros (C++
value-initialization), entries 0 and 1 then written to 0 explicitly. -/
def init_VecList (size : Nat) : VecList :=
  let z := List.replicate size 0
  { parents := (z.set 0 0).set 1 0
    lengths := (z.set 0 0).set 1 0
    i_vec := (z.set 0 0).set 1 0
    j_vec := (z.set 0 0).set 1 0 }

/-- One step of the parent-chain walk in `ConnectedComponents::trackParentRun`,
with explicit fuel.  The C++ loop `while (parents[run] != 0) run = parents[run]`
terminates exactly when the chain reaches an entry holding 0; under the
downward invariant established below (claim C9) the chain from `run` is
strictly decreasing, so fuel `run + 1` dominates the loop. -/
def trackGo (parents : List Nat) : Nat → Nat → Nat
  | 0, run => run
  | fuel + 1, run =>
    if parents.getD run 0 = 0 then run else trackGo parents fuel (parents.getD run 0)

/-- `ConnectedComponents::trackParentRun`. -/
def trackParentRun (run : Nat) (parents : List Nat) : Nat :=
  trackGo parents (run + 1) run

/-- `ConnectedComponents::run_union`: early return when either argument is the
other's direct parent, otherwise resolve both roots and attach the numerically
larger root under the smaller. -/
def run_union (parents : List Nat) (run1 run2 : Nat) : List Nat :=
  if parents.getD run1 0 = run2 ∨ parents.getD run2 0 = run1 then
    parents
  else if trackParentRun run2 parents < trackParentRun run1 parents then
    parents.set (trackParentRun run1 parents) (trackParentRun run2 parents)
  else if trackParentRun run1 parents < trackParentRun run2 parents then
    parents.set (trackParentRun run2 parents) (trackParentRun run1 parents)
  else
    parents

/-- `SinkCC::setRunSink`: repoint the root of `run` to the sink root 1, unless
`run` is a reserved index or already resolves to the sink. -/
def setRunSink (run : Nat) (parents : List Nat) : List Nat :=
  if run = 0 ∨ run = 1 then
    parents
  else if trackParentRun run parents = 1 then
    parents
  else
    parents.set (trackParentRun run parents) 1

/-- `SinkCC::SinkCond`: the sink-adjacency predicate reads the raster value at
the cell itself (before the scan overwrites it) and compares it with 1. -/
def SinkCond (mask : Mask) (i j : Nat) : Prop := mask i j = 1

instance (mask : Mask) (i j : Nat) : Decidable (SinkCond mask i j) :=
  inferInstanceAs (Decidable (mask i j = 1))

/-- Which concrete class runs the engine: the base `ConnectedComponents` or the
derived `SinkCC` (the virtual methods `startNewRun` / `continueRun` /
`treatInnerMargin` dispatch on this). -/
inductive CC where
  | base
  | sink
deriving DecidableEq

/-- `ConnectedComponents::startNewRun`: bump the run counter and record the new
run's start cell, length 1 and parent. -/
def startNewRunBase (i j run_number : Nat) (lists : VecList) (parent : Nat) :
    Nat × VecList :=
  let rn := run_number + 1
  (rn,
    { i_vec := lists.i_vec.set rn i
      j_vec := lists.j_vec.set rn j
      lengths := lists.lengths.set rn 1
      parents := lists.parents.set rn parent })

/-- `ConnectedComponents::continueRun`: extend the current run by one cell. -/
def continueRunBase (run_number : Nat) (lists : VecList) : VecList :=
  { lists with lengths := lists.lengths.set run_number (lists.lengths.getD run_number 0 + 1) }

/-- Virtual `startNewRun`: `SinkCC` forces the parent to the sink root 1 when
the cell satisfies the sink-adjacency predicate. -/
def startNewRun : CC → Mask → Nat → Nat → Nat → VecList → Nat → Nat × VecList
  | CC.base, _, i, j, rn, lists, parent => startNewRunBase i j rn lists parent
  | CC.sink, mask, i, j, rn, lists, parent =>
    startNewRunBase i j rn lists (if SinkCond mask i j then 1 else parent)

/-- Virtual `continueRun`: `SinkCC` additionally repoints the run's root to the
sink root when the newly added cell satisfies the sink-adjacency predicate. -/
def continueRun : CC → Mask → Nat → Nat → Nat → VecList → VecList
  | CC.base, _, _, _, rn, lists => continueRunBase rn lists
  | CC.sink, mask, i, j, rn, lists =>
    let l1 := continueRunBase rn lists
    if SinkCond mask i j then { l1 with parents := setRunSink rn l1.parents } else l1

/-- `ConnectedComponents::mergeRuns`: union the current run with the south
neighbour's run (`run_union(parents, run_south, run_number)`). -/
def mergeRuns (run_number run_south : Nat) (lists : VecList) : VecList :=
  { lists with parents := run_union lists.parents run_south run_number }

/-- The index bounds of one process's owned tile and of the global domain
(`m_i_local_first` … `m_j_global_last`). -/
structure Grid where
  i_local_first : Nat
  i_local_last : Nat
  j_local_first : Nat
  j_local_last : Nat
  i_global_first : Nat
  i_global_last : Nat
  j_global_first : Nat
  j_global_last : Nat

/-- `ConnectedComponents::checkForegroundPixel`: continue the current run when
the west neighbour's raster value is positive (and the cell is not in the
tile's westmost column); otherwise start a new run whose parent is the south
neighbour's raster value when positive (and not across the tile's south edge),
else 0; independently union with the south neighbour's run when its raster
value is positive. -/
def checkForegroundPixel (k : CC) (g : Grid) (mask : Mask) (i j run_number : Nat)
    (lists : VecList) : Nat × VecList :=
  let isWest := i ≤ g.i_local_first
  let isSouth := j ≤ g.j_local_first
  let star := int_star mask i j
  let step1 : Nat × VecList :=
    if ¬isWest ∧ 0 < star.w then
      (run_number, continueRun k mask i j run_number lists)
    else
      let parent := if ¬isSouth ∧ 0 < star.s then star.s else 0
      startNewRun k mask i j run_number lists parent
  if ¬isSouth ∧ 0 < star.s then
    (step1.1, mergeRuns step1.1 star.s step1.2)
  else
    step1

/-- `ConnectedComponents::resizeLists` on one array: C++ `std::vector::resize`
keeps the existing prefix and value-initializes new entries to 0. -/
def resizeRunVec (l : List Nat) (new_length : Nat) : List Nat :=
  l.take new_length ++ List.replicate (new_length - l.length) 0

/-- `ConnectedComponents::resizeLists`. -/
def resizeLists (lists : VecList) (new_length : Nat) : VecList :=
  { parents := resizeRunVec lists.parents new_length
    lengths := resizeRunVec lists.lengths new_length
    i_vec := resizeRunVec lists.i_vec new_length
    j_vec := resizeRunVec lists.j_vec new_length }

/-- The mutable state of one invocation on one process: the label raster, the
run counter, the run arrays and their capacity (`max_items`). -/
structure EngineState where
  mask : Mask
  run_number : Nat
  lists : VecList
  max_items : Nat

/-- One cell of the scan loop in `ConnectedComponents::compute_runs`: on a
foreground cell run `checkForegroundPixel`, write the (possibly new) run index
into the raster, and grow the run arrays by one row's worth of entries when the
next index would reach the capacity. -/
def scanStep (k : CC) (fg : Nat → Nat → Bool) (g : Grid) (st : EngineState)
    (c : Nat × Nat) : EngineState :=
  if fg c.1 c.2 then
    let p := checkForegroundPixel k g st.mask c.1 c.2 st.run_number st.lists
    let mask' := updMask st.mask c.1 c.2 p.1
    if st.max_items ≤ p.1 + 1 then
      let mi := st.max_items + (g.j_local_last + 1 - g.j_local_first)
      ⟨mask', p.1, resizeLists p.2 mi, mi⟩
    else
      ⟨mask', p.1, p.2, st.max_items⟩
  else st

/-- Modelled from the spec: the grid iterator `Points` (not in the excerpt)
visits the owned tile row-major — rows `j` outer, columns `i` inner — which is
what makes `checkForegroundPixel`'s west-continuation correct. -/
def scanOrder (g : Grid) : List (Nat × Nat) :=
  (List.range' g.j_local_first (g.j_local_last + 1 - g.j_local_first)).flatMap
    (fun j => (List.range' g.i_local_first (g.i_local_last + 1 - g.i_local_first)).map
      (fun i => (i, j)))

/-- The complete local scan of `ConnectedComponents::compute_runs`. -/
def scanAll (k : CC) (fg : Nat → Nat → Bool) (g : Grid) (st0 : EngineState) :
    EngineState :=
  (scanOrder g).foldl (scanStep k fg g) st0

/-- The inner loop of `ConnectedComponents::labelMask` for one run `kk`:
resolve the run's root and overwrite the raster for every cell of the run's
recorded span. -/
def labelRun (lists : VecList) (m : Mask) (kk : Nat) : Mask :=
  let label := trackParentRun kk lists.parents
  (List.range (lists.lengths.getD kk 0)).foldl
    (fun mm n => updMask mm (lists.i_vec.getD kk 0 + n) (lists.j_vec.getD kk 0) label) m

/-- `ConnectedComponents::labelMask`: relabel the raster from the run arrays,
for every run index from 0 to `run_number`. -/
def labelMask (run_number : Nat) (lists : VecList) (m : Mask) : Mask :=
  (List.range (run_number + 1)).foldl (labelRun lists) m

/-- `ConnectedComponents::updateRunsAtBoundaries` as the source executes it:
after the ghost exchange, its next statement is `return false;`
(connected_components.cc line 149), so the margin sweep below that statement
(lines 150–163, including the `GlobalOr` reduction) is unreachable and the
function changes no run data.  The ghost exchange writes only ghost copies of
cells owned by other processes, never an owned cell, so on the owned raster the
state is returned unchanged. -/
def updateRunsAtBoundaries (lists : VecList) (m : Mask) : Bool × VecList × Mask :=
  (false, lists, m)

/-- `SinkCC::treatInnerMargin`: at a cell whose label exceeds 1, if a
cross-boundary neighbour (per the passed margin flags) holds the sink label 1,
repoint this cell's run entry to the sink root and record a change. -/
def treatInnerMargin (mask : Mask) (i j : Nat)
    (isNorth isEast isSouth isWest : Bool) (lists : VecList) (changed : Bool) :
    VecList × Bool :=
  let run := mask i j
  if 1 < run then
    let star := int_star mask i j
    let WestSink := isWest = true ∧ star.w = 1
    let EastSink := isEast = true ∧ star.e = 1
    let SouthSink := isSouth = true ∧ star.s = 1
    let NorthSink := isNorth = true ∧ star.n = 1
    if WestSink ∨ EastSink ∨ SouthSink ∨ NorthSink then
      ({ lists with parents := lists.parents.set run 1 }, true)
    else
      (lists, changed)
  else
    (lists, changed)

/-- The margin sweep of `ConnectedComponents::updateRunsAtBoundaries`, lines
150–163 of connected_components.cc: the code that the unconditional
`return false;` on line 149 makes unreachable.  It is embedded separately to
state what the function would have computed.  The call on line 159 passes
`isWest` in the `isSouth` argument position; that slip is mirrored here. -/
def marginSweep (g : Grid) (mask : Mask) (lists : VecList) : VecList × Bool :=
  (scanOrder g).foldl
    (fun acc c =>
      let i := c.1
      let j := c.2
      let isWest := decide (i = g.i_local_first ∧ ¬i = g.i_global_first)
      let isEast := decide (i = g.i_local_last ∧ ¬i = g.i_global_last)
      let isSouth := decide (j = g.j_local_first ∧ ¬j = g.j_global_first)
      let isNorth := decide (j = g.j_local_last ∧ ¬j = g.j_global_last)
      if isWest || isEast || isSouth || isNorth then
        treatInnerMargin mask i j isNorth isEast isWest isWest acc.1 acc.2
      else
        acc)
    (lists, false)

/-- The reconciliation loop of `ConnectedComponents::compute_runs` with fuel:
each round runs `updateRunsAtBoundaries` then `labelMask`, and repeats while
the round reported a change.  Because `updateRunsAtBoundaries` returns `false`
unconditionally, every positive fuel gives the same result (proved below). -/
def boundaryLoop (run_number : Nat) : Nat → VecList → Mask → Mask
  | 0, _, m => m
  | fuel + 1, lists, m =>
    let u := updateRunsAtBoundaries lists m
    let m1 := labelMask run_number u.2.1 u.2.2
    if u.1 then boundaryLoop run_number fuel u.2.1 m1 else m1

/-- `ConnectedComponents::compute_runs`: the local scan, one label resolution,
then the reconciliation loop. -/
def compute_runs (k : CC) (fg : Nat → Nat → Bool) (g : Grid) (fuel : Nat)
    (st0 : EngineState) : EngineState :=
  let st := scanAll k fg g st0
  let m1 := labelMask st.run_number st.lists st.mask
  { st with mask := boundaryLoop st.run_number fuel st.lists m1 }

/-- Modelled from the spec: one full Labeling Engine invocation.  The driver
that allocates the per-invocation run arrays and the run counter is not in the
excerpt; per spec section 3, indices 0 and 1 are reserved and run indices are
assigned sequentially from 2, so the counter starts at 1, and the arrays start
at some caller-chosen capacity `cap`. -/
def invoke (k : CC) (fg : Nat → Nat → Bool) (g : Grid) (cap : Nat) (m0 : Mask) :
    EngineState :=
  compute_runs k fg g 1 ⟨m0, 1, init_VecList cap, cap⟩

/-- One process owning the whole global domain. -/
def fullGrid (Mx My : Nat) : Grid :=
  ⟨0, Mx - 1, 0, My - 1, 0, Mx - 1, 0, My - 1⟩

/-- The left tile of a two-process split of an `Mx × My` domain at column
`split`. -/
def leftGrid (Mx My split : Nat) : Grid :=
  ⟨0, split - 1, 0, My - 1, 0, Mx - 1, 0, My - 1⟩

/-- The right tile of a two-process split of an `Mx × My` domain at column
`split`. -/
def rightGrid (Mx My split : Nat) : Grid :=
  ⟨split, Mx - 1, 0, My - 1, 0, Mx - 1, 0, My - 1⟩

/-- Modelled from the spec: the SPMD execution on two side-by-side tiles.  Each
process runs `compute_runs` on its own copy of the raster; the local scan and
`labelMask` read and write only owned cells, and the reconciliation loop's
margin logic is unreachable, so the only cross-process interaction — the ghost
exchange — writes no owned cell, and the global result is each process's owned
part of its own raster. -/
def twoTileMask (k : CC) (fg : Nat → Nat → Bool) (Mx My split cap : Nat)
    (m0 : Mask) : Mask :=
  let a := invoke k fg (leftGrid Mx My split) cap m0
  let b := invoke k fg (rightGrid Mx My split) cap m0
  fun i j => if i < split then a.mask i j else b.mask i j

/-! ## The downward shape of the parent forest

`Down p` says every recorded parent pointer goes strictly down (0 plays the
role of "root marker": `trackParentRun` stops on it).  This is the acyclicity
shape the spec describes as "always attaching a numerically larger root under
a smaller one"; it is stated boundedly so that it is decidable on concrete
lists, and `Down.get` removes the bound. -/

def Down (p : List Nat) : Prop :=
  ∀ k, k < p.length → p.getD k 0 = 0 ∨ p.getD k 0 < k

instance (p : List Nat) : Decidable (Down p) :=
  inferInstanceAs (Decidable (∀ k, k < p.length → _ ∨ _))

/-! ## The scan invariant: parent pointers stay strictly below their index -/

structure PInv (rn : Nat) (p : List Nat) : Prop where
  p0 : p.getD 0 0 = 0
  p1 : p.getD 1 0 = 0
  down : ∀ kk, 2 ≤ kk → kk ≤ rn → p.getD kk 0 < kk
  fresh : ∀ kk, rn < kk → p.getD kk 0 = 0

structure ScanInv (st : EngineState) : Prop where
  rn_pos : 1 ≤ st.run_number
  pinv : PInv st.run_number st.lists.parents
  maskle : ∀ a b, st.mask a b ≤ st.run_number

/-- The state of the scan after its first `n` cells, starting from the
invocation's initial state. -/
def scanPrefix (k : CC) (fg : Nat → Nat → Bool) (g : Grid) (cap : Nat)
    (m0 : Mask) (n : Nat) : EngineState :=
  ((scanOrder g).take n).foldl (scanStep k fg g) ⟨m0, 1, init_VecList cap, cap⟩

/-! ## Concrete scenarios -/

/-- A foreground predicate accepting every cell. -/
def fgAll : Nat → Nat → Bool := fun _ _ => true

/-- Initial raster: the sink label 1 at the origin, 0 elsewhere. -/
def seedMask : Mask := fun i j => if i = 0 ∧ j = 0 then 1 else 0

/-- The single-process run on the 2×1 domain whose west cell is sink-marked. -/
def oneProcState : EngineState := invoke CC.sink fgAll (fullGrid 2 1) 8 seedMask

/-- The right tile's state in the two-process split of the same domain. -/
def rightTileState : EngineState := invoke CC.sink fgAll (rightGrid 2 1 1) 8 seedMask

/-- The combined raster of the two-process run of the same domain. -/
def twoProcMask : Mask := twoTileMask CC.sink fgAll 2 1 1 8 seedMask

/-! ## Scenario for claim C3 -/

/-- The staircase foreground pattern on a 3×3 domain: rows 0 and 2 partial,
row 1 full, so that the south neighbour of the last-scanned cell carries a
run index that is no longer a root when that cell starts its run. -/
def fgStairs : Nat → Nat → Bool := fun i j =>
  (i == 0 && j == 0) || (i == 2 && j == 0) || (j == 1) || (i == 2 && j == 2)

/-- The all-zero raster. -/
def zeroMask : Mask := fun _ _ => 0

/-- The scan state after the first 8 of the 9 cells of the 3×3 scan — just
before cell (2,2) is processed. -/
def stairsPre : EngineState := scanPrefix CC.base fgStairs (fullGrid 3 3) 20 zeroMask 8

/-- Processing the foreground cell (2,2). -/
def stairsStep : Nat × VecList :=
  checkForegroundPixel CC.base (fullGrid 3 3) stairsPre.mask 2 2
    stairsPre.run_number stairsPre.lists

/-! ## Scenario for claim C8 -/

/-- Foreground pattern for the idempotence counterexample: two cells of row 0
separated by a non-foreground cell that carries a stale positive value, and
one cell of row 1 right above that stale cell. -/
def fgPocket : Nat → Nat → Bool := fun i j =>
  (i == 1 && j == 0) || (i == 3 && j == 0) || (i == 2 && j == 1)

/-- Initial raster: value 1 at the non-foreground cell (2,0), 0 elsewhere. -/
def pocketMask : Mask := fun i j => if i = 2 ∧ j = 0 then 1 else 0

/-- The converged raster of the first invocation. -/
def pocketOnce : Mask := (invoke CC.base fgPocket (fullGrid 4 2) 20 pocketMask).mask

/-- The raster after re-invoking the engine on the converged raster. -/
def pocketTwice : Mask := (invoke CC.base fgPocket (fullGrid 4 2) 20 pocketOnce).mask

/-! ## Scenario for claim C10 -/

/-- Foreground pattern for the frame counterexample: cells (1,0) and (3,0)
only. -/
def fgTwoCells : Nat → Nat → Bool := fun i j => (i == 1 && j == 0) || (i == 3 && j == 0)

/-! ## The clean-scan invariant: run spans cover only foreground cells

When the initial raster holds 0 at every non-foreground cell, the scan writes
only foreground cells and every recorded run span consists of foreground
cells; `west` ties the current run's span end to the scan position, which is
what makes run continuation extend the span exactly onto the cell being
scanned. -/

structure CleanInv (fg : Nat → Nat → Bool) (g : Grid) (i j : Nat)
    (st : EngineState) : Prop where
  rn_pos : 1 ≤ st.run_number
  nonfg : ∀ a b, fg a b = false → st.mask a b = 0
  spanfg : ∀ kk nn, nn < st.lists.lengths.getD kk 0 →
    fg (st.lists.i_vec.getD kk 0 + nn) (st.lists.j_vec.getD kk 0) = true
  west : ¬i ≤ g.i_local_first → fg (i - 1) j = true →
    2 ≤ st.run_number ∧ st.mask (i - 1) j = st.run_number ∧
    st.lists.j_vec.getD st.run_number 0 = j ∧
    st.lists.i_vec.getD st.run_number 0 + st.lists.lengths.getD st.run_number 0 = i
  llen : st.lists.lengths.length = st.max_items
  ilen : st.lists.i_vec.length = st.max_items
  jlen : st.lists.j_vec.length = st.max_items
  cap : st.run_number + 1 < st.max_items

/-- The position-tracked part of `CleanInv` that does not mention array
capacity. -/
structure RecInv (fg : Nat → Nat → Bool) (g : Grid) (i j rn : Nat)
    (l : VecList) (m : Mask) : Prop where
  rn_pos : 1 ≤ rn
  nonfg : ∀ a b, fg a b = false → m a b = 0
  spanfg : ∀ kk nn, nn < l.lengths.getD kk 0 →
    fg (l.i_vec.getD kk 0 + nn) (l.j_vec.getD kk 0) = true
  west : ¬i ≤ g.i_local_first → fg (i - 1) j = true →
    2 ≤ rn ∧ m (i - 1) j = rn ∧ l.j_vec.getD rn 0 = j ∧
    l.i_vec.getD rn 0 + l.lengths.getD rn 0 = i

/-- The set of cells already processed when the scan position is column `i` of
row `j`: all tile cells of earlier rows, and the earlier columns of row `j`. -/
def Vis (g : Grid) (i j a b : Nat) : Prop :=
  g.i_local_first ≤ a ∧ a ≤ g.i_local_last ∧ g.j_local_first ≤ b ∧
    (b < j ∨ (b = j ∧ a < i))

structure LockRel (fg : Nat → Nat → Bool) (g : Grid) (m m' : Mask) (i j : Nat)
    (st1 st2 : EngineState) : Prop where
  rn : st1.run_number = st2.run_number
  lists : st1.lists = st2.lists
  mx : st1.max_items = st2.max_items
  maskeq : ∀ a b, Vis g i j a b → fg a b = true → st1.mask a b = st2.mask a b
  un1 : ∀ a b, ¬Vis g i j a b ∨ fg a b = false → st1.mask a b = m a b
  un2 : ∀ a b, ¬Vis g i j a b ∨ fg a b = false → st2.mask a b = m' a b

/-- The scan state of one invocation, before label resolution. -/
def scanInit (k : CC) (fg : Nat → Nat → Bool) (g : Grid) (cap : Nat)
    (m0 : Mask) : EngineState :=
  scanAll k fg g ⟨m0, 1, init_VecList cap, cap⟩
/-! ## Basic list-access lemmas -/

theorem getD_set_self (l : List Nat) (i v : Nat) (h : i < l.length) :
    (l.set i v).getD i 0 = v := by
  simp [List.getD_eq_getElem?_getD, List.getElem?_set_self, h]

theorem getD_set_ne (l : List Nat) (i k v : Nat) (h : k ≠ i) :
    (l.set i v).getD k 0 = l.getD k 0 := by
  simp [List.getD_eq_getElem?_getD, List.getElem?_set_ne (Ne.symm h)]

theorem getD_of_length_le (l : List Nat) (i : Nat) (h : l.length ≤ i) :
    l.getD i 0 = 0 := by
  simp [List.getD_eq_getElem?_getD, List.getElem?_eq_none h]

theorem getD_set_le (l : List Nat) (i k v : Nat) :
    (k = i ∧ (l.set i v).getD k 0 = v) ∨ (l.set i v).getD k 0 = l.getD k 0 := by
  by_cases hk : k = i
  · subst hk
    by_cases hl : k < l.length
    · exact Or.inl ⟨rfl, getD_set_self l k v hl⟩
    · right
      rw [List.set_eq_of_length_le (by omega)]
  · exact Or.inr (getD_set_ne l i k v hk)

theorem Down.get {p : List Nat} (hp : Down p) (k : Nat) :
    p.getD k 0 = 0 ∨ p.getD k 0 < k := by
  by_cases h : k < p.length
  · exact hp k h
  · exact Or.inl (getD_of_length_le p k (by omega))

theorem Down.set {p : List Nat} (hp : Down p) {a v : Nat} (hv : v = 0 ∨ v < a) :
    Down (p.set a v) := by
  intro k hk
  rcases getD_set_le p a k v with ⟨hka, h⟩ | h
  · rw [h]
    omega
  · rw [h]
    exact hp.get k

/-! ## Lemmas about the parent-chain walk -/

theorem trackGo_succ (p : List Nat) (n run : Nat) :
    trackGo p (n + 1) run = if p.getD run 0 = 0 then run else trackGo p n (p.getD run 0) :=
  rfl

theorem trackGo_pos (p : List Nat) : ∀ fuel run, 1 ≤ run → 1 ≤ trackGo p fuel run := by
  intro fuel
  induction fuel with
  | zero => intro run h; simpa [trackGo] using h
  | succ n ih =>
    intro run h
    rw [trackGo_succ]
    by_cases h0 : p.getD run 0 = 0
    · rwa [if_pos h0]
    · rw [if_neg h0]
      exact ih (p.getD run 0) (by omega)

theorem trackGo_le {p : List Nat} (hp : Down p) :
    ∀ fuel run, trackGo p fuel run ≤ run := by
  intro fuel
  induction fuel with
  | zero => intro run; simp [trackGo]
  | succ n ih =>
    intro run
    rw [trackGo_succ]
    by_cases h0 : p.getD run 0 = 0
    · rw [if_pos h0]
    · rw [if_neg h0]
      have hd := hp.get run
      have := ih (p.getD run 0)
      omega

theorem trackGo_stable {p : List Nat} (hp : Down p) :
    ∀ run f1 f2, run < f1 → run < f2 → trackGo p f1 run = trackGo p f2 run := by
  intro run
  induction run using Nat.strong_induction_on with
  | _ run ih =>
    intro f1 f2 h1 h2
    match f1, f2 with
    | a + 1, b + 1 =>
      rw [trackGo_succ, trackGo_succ]
      by_cases h0 : p.getD run 0 = 0
      · rw [if_pos h0, if_pos h0]
      · have hd := hp.get run
        have hlt : p.getD run 0 < run := by omega
        rw [if_neg h0, if_neg h0]
        exact ih (p.getD run 0) hlt a b (by omega) (by omega)

theorem trackParentRun_step {p : List Nat} (hp : Down p) (run : Nat)
    (h0 : p.getD run 0 ≠ 0) :
    trackParentRun run p = trackParentRun (p.getD run 0) p := by
  have hd := hp.get run
  have hlt : p.getD run 0 < run := by omega
  rw [trackParentRun, trackParentRun, trackGo_succ, if_neg h0]
  exact trackGo_stable hp (p.getD run 0) run (p.getD run 0 + 1) (by omega) (by omega)

theorem trackParentRun_zero (p : List Nat) (run : Nat) (h0 : p.getD run 0 = 0) :
    trackParentRun run p = run := by
  rw [trackParentRun, trackGo_succ, if_pos h0]

theorem trackParentRun_pos (p : List Nat) (run : Nat) (h : 1 ≤ run) :
    1 ≤ trackParentRun run p :=
  trackGo_pos p (run + 1) run h

theorem trackParentRun_le {p : List Nat} (hp : Down p) (run : Nat) :
    trackParentRun run p ≤ run :=
  trackGo_le hp (run + 1) run

theorem trackParentRun_root {p : List Nat} (hp : Down p) :
    ∀ run, p.getD (trackParentRun run p) 0 = 0 := by
  intro run
  induction run using Nat.strong_induction_on with
  | _ run ih =>
    by_cases h0 : p.getD run 0 = 0
    · rwa [trackParentRun_zero p run h0]
    · have hd := hp.get run
      have hlt : p.getD run 0 < run := by omega
      rw [trackParentRun_step hp run h0]
      exact ih (p.getD run 0) hlt

/-! ## Preservation lemmas for the parent-writing operations -/

theorem run_union_char {p : List Nat} (hp : Down p) (run1 run2 : Nat)
    (h1 : 1 ≤ run1) (h2 : 1 ≤ run2) :
    run_union p run1 run2 =
      if trackParentRun run1 p = trackParentRun run2 p then p
      else
        p.set (max (trackParentRun run1 p) (trackParentRun run2 p))
          (min (trackParentRun run1 p) (trackParentRun run2 p)) := by
  unfold run_union
  by_cases he : p.getD run1 0 = run2 ∨ p.getD run2 0 = run1
  · rw [if_pos he]
    have htr : trackParentRun run1 p = trackParentRun run2 p := by
      rcases he with he | he
      · rw [trackParentRun_step hp run1 (by rw [he]; omega), he]
      · rw [trackParentRun_step hp run2 (by rw [he]; omega), he]
    rw [if_pos htr]
  · rw [if_neg he]
    by_cases hlt : trackParentRun run2 p < trackParentRun run1 p
    · rw [if_pos hlt, if_neg (by omega : ¬trackParentRun run1 p = trackParentRun run2 p)]
      rw [Nat.max_eq_left (by omega), Nat.min_eq_right (by omega)]
    · rw [if_neg hlt]
      by_cases hlt2 : trackParentRun run1 p < trackParentRun run2 p
      · rw [if_pos hlt2, if_neg (by omega : ¬trackParentRun run1 p = trackParentRun run2 p)]
        rw [Nat.max_eq_right (by omega), Nat.min_eq_left (by omega)]
      · rw [if_neg hlt2, if_pos (by omega : trackParentRun run1 p = trackParentRun run2 p)]

theorem run_union_down {p : List Nat} (hp : Down p) (run1 run2 : Nat) :
    Down (run_union p run1 run2) := by
  unfold run_union
  split_ifs with h1 h2 h3
  · exact hp
  · exact hp.set (Or.inr h2)
  · exact hp.set (Or.inr h3)
  · exact hp

theorem run_union_getD_low (p : List Nat) (run1 run2 k : Nat)
    (h1 : 1 ≤ run1) (h2 : 1 ≤ run2) (hk : k ≤ 1) :
    (run_union p run1 run2).getD k 0 = p.getD k 0 := by
  have t1 := trackParentRun_pos p run1 h1
  have t2 := trackParentRun_pos p run2 h2
  unfold run_union
  split_ifs with e1 e2 e3
  · rfl
  · exact getD_set_ne _ _ _ _ (by omega)
  · exact getD_set_ne _ _ _ _ (by omega)
  · rfl

theorem setRunSink_down {p : List Nat} (hp : Down p) (run : Nat) :
    Down (setRunSink run p) := by
  unfold setRunSink
  split_ifs with h1 h2
  · exact hp
  · exact hp
  · have := trackParentRun_pos p run (by omega)
    exact hp.set (Or.inr (by omega))

theorem setRunSink_getD_low (p : List Nat) (run k : Nat) (hk : k ≤ 1) :
    (setRunSink run p).getD k 0 = p.getD k 0 := by
  unfold setRunSink
  split_ifs with h1 h2
  · rfl
  · rfl
  · have := trackParentRun_pos p run (by omega)
    exact getD_set_ne _ _ _ _ (by omega)

theorem startNewRun_parents (k : CC) (m : Mask) (i j rn : Nat) (l : VecList)
    (parent : Nat) :
    (startNewRun k m i j rn l parent).2.parents =
      l.parents.set (rn + 1) (if k = CC.sink ∧ SinkCond m i j then 1 else parent) := by
  cases k with
  | base => simp [startNewRun, startNewRunBase]
  | sink =>
    by_cases hs : SinkCond m i j <;>
      simp [startNewRun, startNewRunBase, hs]

theorem startNewRun_down (k : CC) (m : Mask) (i j rn : Nat) (l : VecList)
    (parent : Nat) (hp : Down l.parents) (hrn : 1 ≤ rn) (hpar : parent ≤ rn) :
    Down ((startNewRun k m i j rn l parent).2.parents) := by
  rw [startNewRun_parents]
  split_ifs with h
  · exact hp.set (Or.inr (by omega))
  · rcases Nat.eq_zero_or_pos parent with h0 | h0
    · exact hp.set (Or.inl h0)
    · exact hp.set (Or.inr (by omega))

theorem continueRun_parents (k : CC) (m : Mask) (i j rn : Nat) (l : VecList) :
    (continueRun k m i j rn l).parents =
      if k = CC.sink ∧ SinkCond m i j then setRunSink rn l.parents else l.parents := by
  cases k with
  | base => simp [continueRun, continueRunBase]
  | sink =>
    by_cases hs : SinkCond m i j <;>
      simp [continueRun, continueRunBase, hs]

theorem continueRun_down (k : CC) (m : Mask) (i j rn : Nat) (l : VecList)
    (hp : Down l.parents) : Down ((continueRun k m i j rn l).parents) := by
  rw [continueRun_parents]
  split_ifs with h
  · exact setRunSink_down hp rn
  · exact hp

theorem treatInnerMargin_parents (m : Mask) (i j : Nat)
    (bn be bs bw : Bool) (l : VecList) (c : Bool) :
    (treatInnerMargin m i j bn be bs bw l c).1.parents = l.parents ∨
      ((treatInnerMargin m i j bn be bs bw l c).1.parents = l.parents.set (m i j) 1 ∧
        1 < m i j) := by
  dsimp only [treatInnerMargin]
  split_ifs with h1 h2
  · exact Or.inr ⟨rfl, h1⟩
  · exact Or.inl rfl
  · exact Or.inl rfl

theorem treatInnerMargin_down (m : Mask) (i j : Nat)
    (bn be bs bw : Bool) (l : VecList) (c : Bool) (hp : Down l.parents) :
    Down ((treatInnerMargin m i j bn be bs bw l c).1.parents) := by
  rcases treatInnerMargin_parents m i j bn be bs bw l c with h | ⟨h, hgt⟩
  · rw [h]; exact hp
  · rw [h]; exact hp.set (Or.inr hgt)

theorem init_VecList_parents_getD (cap k : Nat) :
    (init_VecList cap).parents.getD k 0 = 0 := by
  unfold init_VecList
  rcases getD_set_le ((List.replicate cap 0).set 0 0) 1 k 0 with ⟨hk, h⟩ | h
  · rw [h]
  · rw [h]
    rcases getD_set_le (List.replicate cap 0) 0 k 0 with ⟨hk, h2⟩ | h2
    · rw [h2]
    · rw [h2]
      by_cases hcap : k < cap
      · simp [List.getD_eq_getElem?_getD, List.getElem?_replicate, hcap]
      · exact getD_of_length_le _ _ (by simpa using by omega)

theorem init_VecList_down (cap : Nat) : Down (init_VecList cap).parents := by
  intro k _
  exact Or.inl (init_VecList_parents_getD cap k)

/-! ## Claim C4 -/

/-- C4: `run_union` merges two runs by attaching the numerically larger of
their two resolved roots under the smaller one and leaves the forest unchanged
when the roots coincide (the source's early return fires only when the two
arguments already share a tree); and every parent-writing operation of the
engine — array initialization, `run_union`, virtual `startNewRun` and
`continueRun` of both classes, `SinkCC::setRunSink` and
`SinkCC::treatInnerMargin` — preserves the strictly-downward (hence acyclic)
shape of the parent relation over run indices. -/
theorem C4_run_union_merge_and_acyclicity :
    (∀ p run1 run2, Down p → 1 ≤ run1 → 1 ≤ run2 →
      run_union p run1 run2 =
        if trackParentRun run1 p = trackParentRun run2 p then p
        else
          p.set (max (trackParentRun run1 p) (trackParentRun run2 p))
            (min (trackParentRun run1 p) (trackParentRun run2 p)))
    ∧ (∀ cap, Down (init_VecList cap).parents)
    ∧ (∀ p run1 run2, Down p → Down (run_union p run1 run2))
    ∧ (∀ k m i j rn l parent, Down l.parents → 1 ≤ rn → parent ≤ rn →
        Down ((startNewRun k m i j rn l parent).2.parents))
    ∧ (∀ k m i j rn l, Down l.parents → Down ((continueRun k m i j rn l).parents))
    ∧ (∀ run p, Down p → Down (setRunSink run p))
    ∧ (∀ m i j bn be bs bw l c, Down l.parents →
        Down ((treatInnerMargin m i j bn be bs bw l c).1.parents)) :=
  ⟨fun _ _ _ hp h1 h2 => run_union_char hp _ _ h1 h2,
   init_VecList_down,
   fun _ _ _ hp => run_union_down hp _ _,
   fun k m i j rn l parent hp hrn hpar => startNewRun_down k m i j rn l parent hp hrn hpar,
   fun k m i j rn l hp => continueRun_down k m i j rn l hp,
   fun run p hp => setRunSink_down hp run,
   fun m i j bn be bs bw l c hp => treatInnerMargin_down m i j bn be bs bw l c hp⟩

/-! ## Claim C5 -/

/-- C5 counterexample: the claim asserts `parents[1] = 1` whenever the sink
policy is active, but `init_VecList` (which every invocation runs first)
writes 0 into `parents[1]`: the engine's root convention is `parents[r] = 0`,
and `trackParentRun` would never terminate on an entry holding its own index.
Here the run arrays are exactly as they stand at the start of an invocation
with capacity 8. -/
theorem C5_cex_reserved_sink_entry_is_zero :
    (init_VecList 8).parents.getD 1 0 = 0 ∧ ¬(init_VecList 8).parents.getD 1 0 = 1 := by
  constructor <;> decide

/-- C5 (amended): at every point of an invocation the reserved union-find
entries satisfy `parents[0] = 0` and `parents[1] = 0` — both reserved indices
are roots under the convention that a zero entry marks a root — and no
operation of the engine (`run_union` with the positive run indices it is
always called on, virtual `startNewRun`/`continueRun`, `SinkCC::setRunSink`,
`SinkCC::treatInnerMargin`) ever rewrites either reserved entry. -/
theorem C5_reserved_entries_never_rewritten :
    (∀ cap kk, kk ≤ 1 → (init_VecList cap).parents.getD kk 0 = 0)
    ∧ (∀ p run1 run2 kk, 1 ≤ run1 → 1 ≤ run2 → kk ≤ 1 →
        (run_union p run1 run2).getD kk 0 = p.getD kk 0)
    ∧ (∀ k m i j rn l parent kk, 1 ≤ rn → kk ≤ 1 →
        (startNewRun k m i j rn l parent).2.parents.getD kk 0 = l.parents.getD kk 0)
    ∧ (∀ k m i j rn l kk, kk ≤ 1 →
        (continueRun k m i j rn l).parents.getD kk 0 = l.parents.getD kk 0)
    ∧ (∀ run p kk, kk ≤ 1 → (setRunSink run p).getD kk 0 = p.getD kk 0)
    ∧ (∀ m i j bn be bs bw l c kk, kk ≤ 1 →
        (treatInnerMargin m i j bn be bs bw l c).1.parents.getD kk 0 = l.parents.getD kk 0) := by
  refine ⟨fun cap kk _ => init_VecList_parents_getD cap kk,
    fun p run1 run2 kk h1 h2 hk => run_union_getD_low p run1 run2 kk h1 h2 hk,
    fun k m i j rn l parent kk hrn hk => ?_,
    fun k m i j rn l kk hk => ?_,
    fun run p kk hk => setRunSink_getD_low p run kk hk,
    fun m i j bn be bs bw l c kk hk => ?_⟩
  · rw [startNewRun_parents]
    exact getD_set_ne _ _ _ _ (by omega)
  · rw [continueRun_parents]
    split_ifs with h
    · exact setRunSink_getD_low l.parents rn kk hk
    · rfl
  · rcases treatInnerMargin_parents m i j bn be bs bw l c with h | ⟨h, hgt⟩
    · rw [h]
    · rw [h]
      exact getD_set_ne _ _ _ _ (by omega)

/-! ## Claim C6 -/

theorem track_set_root {p : List Nat} (hp : Down p) (h1 : p.getD 1 0 = 0) :
    ∀ rn, 1 ≤ rn → trackParentRun rn p ≠ 1 → trackParentRun rn p < p.length →
      trackParentRun rn (p.set (trackParentRun rn p) 1) = 1 := by
  intro rn
  induction rn using Nat.strong_induction_on with
  | _ rn ih =>
    intro hrn hne hlen
    by_cases h0 : p.getD rn 0 = 0
    · rw [trackParentRun_zero p rn h0] at hne hlen ⊢
      have hrn2 : 2 ≤ rn := by omega
      have hd : Down (p.set rn 1) := hp.set (Or.inr (by omega))
      have hstep : (p.set rn 1).getD rn 0 = 1 := getD_set_self p rn 1 hlen
      rw [trackParentRun_step hd rn (by rw [hstep]; omega), hstep]
      exact trackParentRun_zero _ 1 (by rw [getD_set_ne p rn 1 1 (by omega)]; exact h1)
    · have hd := hp.get rn
      have hv : p.getD rn 0 < rn := by omega
      have hv1 : 1 ≤ p.getD rn 0 := by omega
      have hstep := trackParentRun_step hp rn h0
      have hr : trackParentRun rn p ≤ p.getD rn 0 := by
        rw [hstep]; exact trackParentRun_le hp _
      have hrne : rn ≠ trackParentRun rn p := by omega
      have hrpos : 1 ≤ trackParentRun rn p := trackParentRun_pos p rn hrn
      have hd' : Down (p.set (trackParentRun rn p) 1) :=
        hp.set (Or.inr (by omega))
      have hkeep : (p.set (trackParentRun rn p) 1).getD rn 0 = p.getD rn 0 :=
        getD_set_ne p _ rn 1 hrne
      rw [trackParentRun_step hd' rn (by rw [hkeep]; exact h0), hkeep]
      have := ih (p.getD rn 0) hv hv1 (by rw [← hstep]; exact hne) (by rw [← hstep]; exact hlen)
      rwa [← hstep] at this

/-- C6: under the sink policy, a run created at a cell satisfying the
sink-adjacency predicate gets parent 1 (the sink root) immediately,
overriding whatever parent the south neighbour would have supplied; and when
a run is continued onto a cell satisfying the predicate, the run's current
root is repointed to the sink root (`parents[root] := 1`, a no-op only when
the root already is the sink), so that the run thereafter resolves to the
sink root. -/
theorem C6_sink_adjacency_forces_sink_root :
    (∀ m i j rn l parent, SinkCond m i j →
      (startNewRun CC.sink m i j rn l parent).2.parents = l.parents.set (rn + 1) 1)
    ∧ (∀ m i j rn l, SinkCond m i j → 2 ≤ rn →
      (continueRun CC.sink m i j rn l).parents =
        if trackParentRun rn l.parents = 1 then l.parents
        else l.parents.set (trackParentRun rn l.parents) 1)
    ∧ (∀ m i j rn l, SinkCond m i j → 2 ≤ rn → Down l.parents →
        l.parents.getD 1 0 = 0 → trackParentRun rn l.parents < l.parents.length →
      trackParentRun rn ((continueRun CC.sink m i j rn l).parents) = 1) := by
  refine ⟨fun m i j rn l parent hs => ?_, fun m i j rn l hs hrn => ?_,
    fun m i j rn l hs hrn hp h1 hlen => ?_⟩
  · rw [startNewRun_parents]
    simp [hs]
  · rw [continueRun_parents, if_pos ⟨rfl, hs⟩]
    unfold setRunSink
    rw [if_neg (by omega : ¬(rn = 0 ∨ rn = 1))]
  · rw [continueRun_parents, if_pos ⟨rfl, hs⟩]
    unfold setRunSink
    rw [if_neg (by omega : ¬(rn = 0 ∨ rn = 1))]
    by_cases hroot : trackParentRun rn l.parents = 1
    · rw [if_pos hroot]
      exact hroot
    · rw [if_neg hroot]
      exact track_set_root hp h1 rn (by omega) hroot hlen

theorem PInv.toDown {rn : Nat} {p : List Nat} (h : PInv rn p) : Down p := by
  intro kk _
  by_cases h2 : 2 ≤ kk
  · by_cases h3 : kk ≤ rn
    · exact Or.inr (h.down kk h2 h3)
    · exact Or.inl (h.fresh kk (by omega))
  · have : kk = 0 ∨ kk = 1 := by omega
    rcases this with rfl | rfl
    · exact Or.inl h.p0
    · exact Or.inl h.p1

theorem setRunSink_PInv {rn : Nat} {p : List Nat} (h : PInv rn p) (run : Nat)
    (hrun : run ≤ rn) : PInv rn (setRunSink run p) := by
  unfold setRunSink
  split_ifs with hg hr
  · exact h
  · exact h
  · have hpos : 1 ≤ trackParentRun run p := trackParentRun_pos p run (by omega)
    have hle : trackParentRun run p ≤ run := trackParentRun_le h.toDown run
    refine ⟨?_, ?_, ?_, ?_⟩
    · rw [getD_set_ne _ _ _ _ (by omega)]; exact h.p0
    · rw [getD_set_ne _ _ _ _ (by omega)]; exact h.p1
    · intro kk h2 h3
      rcases getD_set_le p (trackParentRun run p) kk 1 with ⟨hk, hv⟩ | hv
      · rw [hv]; omega
      · rw [hv]; exact h.down kk h2 h3
    · intro kk hk
      rw [getD_set_ne _ _ _ _ (by omega)]
      exact h.fresh kk hk

theorem run_union_PInv {rn : Nat} {p : List Nat} (h : PInv rn p) (a b : Nat)
    (ha1 : 1 ≤ a) (ha2 : a ≤ rn) (hb1 : 1 ≤ b) (hb2 : b ≤ rn) :
    PInv rn (run_union p a b) := by
  have ta1 : 1 ≤ trackParentRun a p := trackParentRun_pos p a ha1
  have ta2 : trackParentRun a p ≤ a := trackParentRun_le h.toDown a
  have tb1 : 1 ≤ trackParentRun b p := trackParentRun_pos p b hb1
  have tb2 : trackParentRun b p ≤ b := trackParentRun_le h.toDown b
  unfold run_union
  split_ifs with e1 e2 e3
  · exact h
  · refine ⟨?_, ?_, ?_, ?_⟩
    · rw [getD_set_ne _ _ _ _ (by omega)]; exact h.p0
    · rw [getD_set_ne _ _ _ _ (by omega)]; exact h.p1
    · intro kk h2 h3
      rcases getD_set_le p _ kk _ with ⟨hk, hv⟩ | hv
      · rw [hv]; omega
      · rw [hv]; exact h.down kk h2 h3
    · intro kk hk
      rw [getD_set_ne _ _ _ _ (by omega)]
      exact h.fresh kk hk
  · refine ⟨?_, ?_, ?_, ?_⟩
    · rw [getD_set_ne _ _ _ _ (by omega)]; exact h.p0
    · rw [getD_set_ne _ _ _ _ (by omega)]; exact h.p1
    · intro kk h2 h3
      rcases getD_set_le p _ kk _ with ⟨hk, hv⟩ | hv
      · rw [hv]; omega
      · rw [hv]; exact h.down kk h2 h3
    · intro kk hk
      rw [getD_set_ne _ _ _ _ (by omega)]
      exact h.fresh kk hk
  · exact h

theorem set_PInv_succ {rn : Nat} {p : List Nat} (h : PInv rn p) (v : Nat)
    (hv : v ≤ rn) (hrn : 1 ≤ rn) : PInv (rn + 1) (p.set (rn + 1) v) := by
  refine ⟨?_, ?_, ?_, ?_⟩
  · rw [getD_set_ne p (rn + 1) 0 v (by omega)]; exact h.p0
  · rw [getD_set_ne p (rn + 1) 1 v (by omega)]; exact h.p1
  · intro kk h2 h3
    rcases getD_set_le p (rn + 1) kk v with ⟨hk, hval⟩ | hval
    · rw [hval]; omega
    · rw [hval]
      by_cases hle : kk ≤ rn
      · exact h.down kk h2 hle
      · have : kk = rn + 1 := by omega
        rw [this, h.fresh (rn + 1) (by omega)]
        omega
  · intro kk hk
    rw [getD_set_ne p (rn + 1) kk v (by omega)]
    exact h.fresh kk (by omega)

theorem resizeRunVec_length (l : List Nat) (n : Nat) :
    (resizeRunVec l n).length = n := by
  unfold resizeRunVec
  rw [List.length_append, List.length_take, List.length_replicate]
  omega

theorem resizeRunVec_getD (l : List Nat) (n kk : Nat) :
    (resizeRunVec l n).getD kk 0 = if kk < n then l.getD kk 0 else 0 := by
  by_cases hn : kk < n
  · rw [if_pos hn]
    unfold resizeRunVec
    by_cases hl : kk < l.length
    · rw [List.getD_append _ _ _ _ (by simp; omega)]
      simp [List.getD_eq_getElem?_getD, List.getElem?_take, hn]
    · rw [List.getD_eq_getElem?_getD, List.getElem?_append_right (by simp [List.length_take]; omega)]
      rw [getD_of_length_le l kk (by omega), List.getElem?_replicate]
      rw [List.length_take, if_pos (by omega)]
      rfl
  · rw [if_neg hn]
    exact getD_of_length_le _ _ (by rw [resizeRunVec_length]; omega)

theorem resize_PInv {rn : Nat} {p : List Nat} (h : PInv rn p) (n : Nat) :
    PInv rn (resizeRunVec p n) := by
  refine ⟨?_, ?_, ?_, ?_⟩
  · rw [resizeRunVec_getD]
    split_ifs
    · exact h.p0
    · rfl
  · rw [resizeRunVec_getD]
    split_ifs
    · exact h.p1
    · rfl
  · intro kk h2 h3
    rw [resizeRunVec_getD]
    split_ifs
    · exact h.down kk h2 h3
    · omega
  · intro kk hk
    rw [resizeRunVec_getD]
    split_ifs
    · exact h.fresh kk hk
    · rfl

theorem continueRun_PInv {rn : Nat} (k : CC) (m : Mask) (i j : Nat) (l : VecList)
    (h : PInv rn l.parents) (hrun : rn ≤ rn) :
    PInv rn (continueRun k m i j rn l).parents := by
  rw [continueRun_parents]
  split_ifs with hc
  · exact setRunSink_PInv h rn hrun
  · exact h

theorem checkForegroundPixel_PInv (k : CC) (g : Grid) (m : Mask) (i j rn : Nat)
    (l : VecList) (hrn : 1 ≤ rn) (hp : PInv rn l.parents)
    (hs : m i (j - 1) ≤ rn) :
    rn ≤ (checkForegroundPixel k g m i j rn l).1 ∧
      (checkForegroundPixel k g m i j rn l).1 ≤ rn + 1 ∧
      PInv (checkForegroundPixel k g m i j rn l).1
        (checkForegroundPixel k g m i j rn l).2.parents := by
  dsimp only [checkForegroundPixel, int_star]
  by_cases h1 : ¬i ≤ g.i_local_first ∧ 0 < m (i - 1) j
  · by_cases h2 : ¬j ≤ g.j_local_first ∧ 0 < m i (j - 1)
    · rw [if_pos h1, if_pos h2]
      refine ⟨le_refl rn, by omega, ?_⟩
      exact run_union_PInv (continueRun_PInv k m i j l hp (le_refl rn))
        (m i (j - 1)) rn h2.2 hs hrn (le_refl rn)
    · rw [if_pos h1, if_neg h2]
      exact ⟨le_refl rn, by omega, continueRun_PInv k m i j l hp (le_refl rn)⟩
  · by_cases h2 : ¬j ≤ g.j_local_first ∧ 0 < m i (j - 1)
    · rw [if_neg h1, if_pos h2, if_pos h2]
      have hstart : PInv (rn + 1) (startNewRun k m i j rn l (m i (j - 1))).2.parents := by
        rw [startNewRun_parents]
        split_ifs with hsink
        · exact set_PInv_succ hp 1 hrn hrn
        · exact set_PInv_succ hp (m i (j - 1)) hs hrn
      have hfst : (startNewRun k m i j rn l (m i (j - 1))).1 = rn + 1 := by
        cases k <;> simp [startNewRun, startNewRunBase]
      refine ⟨?_, ?_, ?_⟩
      · rw [hfst]; omega
      · rw [hfst]
      · dsimp only [mergeRuns]
        rw [hfst]
        exact run_union_PInv hstart (m i (j - 1)) (rn + 1) h2.2 (by omega) (by omega)
          (le_refl (rn + 1))
    · rw [if_neg h1, if_neg h2, if_neg h2]
      have hstart : PInv (rn + 1) (startNewRun k m i j rn l 0).2.parents := by
        rw [startNewRun_parents]
        split_ifs with hsink
        · exact set_PInv_succ hp 1 hrn hrn
        · exact set_PInv_succ hp 0 (by omega) hrn
      have hfst : (startNewRun k m i j rn l 0).1 = rn + 1 := by
        cases k <;> simp [startNewRun, startNewRunBase]
      refine ⟨?_, ?_, ?_⟩
      · rw [hfst]; omega
      · rw [hfst]
      · rw [hfst]
        exact hstart

theorem scanStep_ScanInv (k : CC) (fg : Nat → Nat → Bool) (g : Grid)
    {st : EngineState} (h : ScanInv st) (c : Nat × Nat) :
    ScanInv (scanStep k fg g st c) := by
  have hcfp := checkForegroundPixel_PInv k g st.mask c.1 c.2 st.run_number st.lists
    h.rn_pos h.pinv (h.maskle c.1 (c.2 - 1))
  have hrp := h.rn_pos
  dsimp only [scanStep]
  split_ifs with hfg hcap
  · refine ⟨?_, ?_, ?_⟩ <;> dsimp only
    · omega
    · exact resize_PInv hcfp.2.2 _
    · intro a b
      unfold updMask
      split_ifs with hab
      · omega
      · have := h.maskle a b
        omega
  · refine ⟨?_, ?_, ?_⟩ <;> dsimp only
    · omega
    · exact hcfp.2.2
    · intro a b
      unfold updMask
      split_ifs with hab
      · omega
      · have := h.maskle a b
        omega
  · exact h

theorem scanInv_foldl (k : CC) (fg : Nat → Nat → Bool) (g : Grid)
    (L : List (Nat × Nat)) {st : EngineState} (h : ScanInv st) :
    ScanInv (L.foldl (scanStep k fg g) st) := by
  induction L generalizing st with
  | nil => exact h
  | cons c L ih => exact ih (scanStep_ScanInv k fg g h c)

theorem scanPrefix_ScanInv (k : CC) (fg : Nat → Nat → Bool) (g : Grid)
    (cap : Nat) (m0 : Mask) (h01 : ∀ a b, m0 a b ≤ 1) (n : Nat) :
    ScanInv (scanPrefix k fg g cap m0 n) := by
  refine scanInv_foldl k fg g _ ⟨le_refl 1, ⟨?_, ?_, ?_, ?_⟩, h01⟩
  · exact init_VecList_parents_getD cap 0
  · exact init_VecList_parents_getD cap 1
  · intro kk h2 h3
    dsimp only at h3
    omega
  · intro kk _
    exact init_VecList_parents_getD cap kk

/-! ## Claim C9 -/

/-- C9: for every invocation whose initial label raster holds only 0 or 1,
at every point of the scan every run record with index 2 or more has its
parent entry strictly below its own index, entries 0 and 1 hold 0, and
consequently the parent-chain walk of `trackParentRun` terminates for every
run index up to the current run counter: it reaches an entry holding 0, and
giving the walk any fuel beyond its index does not change the result (the C++
`while` loop stops). -/
theorem C9_parents_descend_and_track_terminates (k : CC) (fg : Nat → Nat → Bool)
    (g : Grid) (cap : Nat) (m0 : Mask) (h01 : ∀ a b, m0 a b ≤ 1) (n : Nat) :
    (∀ kk, 2 ≤ kk → kk ≤ (scanPrefix k fg g cap m0 n).run_number →
      (scanPrefix k fg g cap m0 n).lists.parents.getD kk 0 < kk)
    ∧ (scanPrefix k fg g cap m0 n).lists.parents.getD 0 0 = 0
    ∧ (scanPrefix k fg g cap m0 n).lists.parents.getD 1 0 = 0
    ∧ (∀ r, r ≤ (scanPrefix k fg g cap m0 n).run_number →
        (scanPrefix k fg g cap m0 n).lists.parents.getD
          (trackParentRun r (scanPrefix k fg g cap m0 n).lists.parents) 0 = 0
        ∧ ∀ fuel, r < fuel →
            trackGo (scanPrefix k fg g cap m0 n).lists.parents fuel r =
              trackParentRun r (scanPrefix k fg g cap m0 n).lists.parents) := by
  have hinv := scanPrefix_ScanInv k fg g cap m0 h01 n
  refine ⟨hinv.pinv.down, hinv.pinv.p0, hinv.pinv.p1, fun r hr => ⟨?_, ?_⟩⟩
  · exact trackParentRun_root hinv.pinv.toDown r
  · intro fuel hfuel
    exact trackGo_stable hinv.pinv.toDown r fuel (r + 1) hfuel (by omega)

theorem seedMask_le (a b : Nat) : seedMask a b ≤ 1 := by
  unfold seedMask
  split_ifs <;> omega

/-- C9 witness: the invariants at the concrete sink scenario after 4 scanned
cells of a 2×2 domain. -/
theorem C9_witness :
    (∀ kk, 2 ≤ kk → kk ≤ (scanPrefix CC.sink fgAll (fullGrid 2 2) 8 seedMask 4).run_number →
      (scanPrefix CC.sink fgAll (fullGrid 2 2) 8 seedMask 4).lists.parents.getD kk 0 < kk)
    ∧ (scanPrefix CC.sink fgAll (fullGrid 2 2) 8 seedMask 4).lists.parents.getD 0 0 = 0
    ∧ (scanPrefix CC.sink fgAll (fullGrid 2 2) 8 seedMask 4).lists.parents.getD 1 0 = 0
    ∧ (∀ r, r ≤ (scanPrefix CC.sink fgAll (fullGrid 2 2) 8 seedMask 4).run_number →
        (scanPrefix CC.sink fgAll (fullGrid 2 2) 8 seedMask 4).lists.parents.getD
          (trackParentRun r (scanPrefix CC.sink fgAll (fullGrid 2 2) 8 seedMask 4).lists.parents) 0 = 0
        ∧ ∀ fuel, r < fuel →
            trackGo (scanPrefix CC.sink fgAll (fullGrid 2 2) 8 seedMask 4).lists.parents fuel r =
              trackParentRun r (scanPrefix CC.sink fgAll (fullGrid 2 2) 8 seedMask 4).lists.parents) :=
  C9_parents_descend_and_track_terminates CC.sink fgAll (fullGrid 2 2) 8 seedMask seedMask_le 4

/-! ## Claim C1 -/

/-- C1 (code bug): with one process, both cells of the 2×1 all-foreground
domain — whose west cell satisfies the sink-adjacency predicate — resolve to
the sink label 1; split into two one-cell tiles, the right process keeps
label 2 on its half of the very same connected component, because
`updateRunsAtBoundaries` returns `false` before inspecting any margin, so no
cross-process merge ever happens. -/
theorem C1_sink_component_splits_across_tiles :
    oneProcState.mask 0 0 = 1 ∧ oneProcState.mask 1 0 = 1
    ∧ twoProcMask 0 0 = 1 ∧ twoProcMask 1 0 = 2 := by
  refine ⟨by decide, by decide, by decide, by decide⟩

/-! ## Claim C2 -/

/-- C2 (code bug): `updateRunsAtBoundaries` performs the ghost exchange and
then returns `false` unconditionally for every state — the margin comparison
and the `GlobalOr` reduction on lines 150–163 are unreachable, so the
reconciliation loop always stops after one round having compared nothing —
although at the concrete two-tile scenario the margin sweep those lines
describe would have found a merge to perform (it reports a change). -/
theorem C2_reconciliation_compares_no_margin :
    (∀ lists m, updateRunsAtBoundaries lists m = (false, lists, m))
    ∧ (marginSweep (rightGrid 2 1 1) twoProcMask rightTileState.lists).2 = true :=
  ⟨fun _ _ => rfl, by decide⟩

/-! ## Claim C7 -/

/-- C7 (code bug): at the right tile's margin cell (1,0), whose resolved label
is 2 (neither background nor sink) and whose west ghost neighbour holds the
sink label 1, `SinkCC::treatInnerMargin` would repoint the run's entry to the
sink root and flag a change — but the invocation never executes it (its only
call site sits below the unconditional `return false`), so the run's parent
entry stays 0 and the cell's final label stays 2. -/
theorem C7_margin_sink_override_never_runs :
    twoProcMask 1 0 = 2
    ∧ (treatInnerMargin twoProcMask 1 0 false false false true
        rightTileState.lists false).1.parents.getD 2 0 = 1
    ∧ (treatInnerMargin twoProcMask 1 0 false false false true
        rightTileState.lists false).2 = true
    ∧ rightTileState.lists.parents.getD 2 0 = 0
    ∧ rightTileState.mask 1 0 = 2 := by
  refine ⟨by decide, by decide, by decide, by decide, by decide⟩

/-! ## Claim C3 -/

/-- C3 counterexample: at cell (2,2) a new run (index 5) starts; its south
neighbour (2,1) is foreground and its raster value is the provisional run
index 4, whose resolved label is 2 (run 4 was merged under run 2 earlier in
the scan).  The code records parent 4 — the south neighbour's raw raster
value — not the resolved label 2 the claim asserts. -/
theorem C3_cex_parent_is_raw_value_not_resolved_label :
    fgStairs 2 2 = true
    ∧ stairsPre.mask 1 2 = 0
    ∧ stairsPre.mask 2 1 = 4
    ∧ trackParentRun (stairsPre.mask 2 1) stairsPre.lists.parents = 2
    ∧ stairsStep.1 = 5
    ∧ stairsStep.2.parents.getD 5 0 = 4
    ∧ ¬stairsStep.2.parents.getD 5 0 =
        trackParentRun (stairsPre.mask 2 1) stairsPre.lists.parents := by
  refine ⟨by decide, by decide, by decide, by decide, by decide, by decide, by decide⟩

/-- C3 (amended): in the base engine's local scan of a foreground cell, if the
west neighbour's raster value is positive and the cell is not in the tile's
westmost column, the current run's length is incremented (and the run is
unioned with the south neighbour's run whenever the south value is positive
and not across the south edge); otherwise a new run starts whose recorded
parent is the south neighbour's *current raster value* (its provisional run
index, not its resolved label) when that value is positive and not across the
south edge, and 0 otherwise — the accompanying union with the south run is
then the early-return case of `run_union`, since the new run's parent already
is that south value. -/
theorem C3_scan_step_characterization (g : Grid) (m : Mask) (i j rn : Nat)
    (l : VecList) :
    ((¬i ≤ g.i_local_first ∧ 0 < m (i - 1) j →
      checkForegroundPixel CC.base g m i j rn l =
        (rn, if ¬j ≤ g.j_local_first ∧ 0 < m i (j - 1) then
              mergeRuns rn (m i (j - 1)) (continueRunBase rn l)
            else continueRunBase rn l)))
    ∧ (¬(¬i ≤ g.i_local_first ∧ 0 < m (i - 1) j) → rn + 1 < l.parents.length →
        (checkForegroundPixel CC.base g m i j rn l).1 = rn + 1
        ∧ (checkForegroundPixel CC.base g m i j rn l).2.parents =
            l.parents.set (rn + 1)
              (if ¬j ≤ g.j_local_first ∧ 0 < m i (j - 1) then m i (j - 1) else 0)
        ∧ (checkForegroundPixel CC.base g m i j rn l).2.lengths =
            l.lengths.set (rn + 1) 1
        ∧ (checkForegroundPixel CC.base g m i j rn l).2.i_vec = l.i_vec.set (rn + 1) i
        ∧ (checkForegroundPixel CC.base g m i j rn l).2.j_vec = l.j_vec.set (rn + 1) j) := by
  constructor
  · intro h1
    dsimp only [checkForegroundPixel, int_star]
    rw [if_pos h1]
    by_cases h2 : ¬j ≤ g.j_local_first ∧ 0 < m i (j - 1)
    · rw [if_pos h2, if_pos h2]
      rfl
    · rw [if_neg h2, if_neg h2]
      rfl
  · intro h1 hlen
    dsimp only [checkForegroundPixel, int_star]
    rw [if_neg h1]
    by_cases h2 : ¬j ≤ g.j_local_first ∧ 0 < m i (j - 1)
    · rw [if_pos h2, if_pos h2]
      have hmerge :
          mergeRuns (startNewRun CC.base m i j rn l (m i (j - 1))).1 (m i (j - 1))
            (startNewRun CC.base m i j rn l (m i (j - 1))).2 =
          (startNewRun CC.base m i j rn l (m i (j - 1))).2 := by
        dsimp only [startNewRun, startNewRunBase, mergeRuns]
        unfold run_union
        rw [if_pos (Or.inr (getD_set_self l.parents (rn + 1) (m i (j - 1)) hlen))]
      rw [hmerge]
      dsimp only [startNewRun, startNewRunBase]
      exact ⟨rfl, rfl, rfl, rfl, rfl⟩
    · rw [if_neg h2, if_neg h2]
      dsimp only [startNewRun, startNewRunBase]
      exact ⟨rfl, rfl, rfl, rfl, rfl⟩

/-! ## Claim C8 counterexample -/

/-- C8 counterexample: re-invoking the engine on the already-converged raster
`pocketOnce` with the same foreground predicate changes the label of the
foreground cell (2,1) from 1 to 2: during the first scan that cell's south
neighbour still held the stale value 1, which became its run's recorded
parent, while during the second scan the same neighbour holds 2. -/
theorem C8_cex_reinvocation_changes_a_label :
    pocketOnce 2 1 = 1 ∧ pocketTwice 2 1 = 2
    ∧ ¬pocketTwice 2 1 = pocketOnce 2 1 := by
  refine ⟨by decide, by decide, by decide⟩

/-! ## Claim C10 counterexample -/

/-- C10 counterexample: cell (2,0) is background for the invocation and holds
the stale positive value 1; the invocation overwrites it with 2.  (The scan of
cell (3,0) sees the stale positive west value, treats it as run continuation,
and extends run 2's recorded span across the background cell, which
`labelMask` then overwrites.) -/
theorem C10_cex_background_cell_overwritten :
    fgTwoCells 2 0 = false
    ∧ pocketMask 2 0 = 1
    ∧ (invoke CC.base fgTwoCells (fullGrid 4 1) 20 pocketMask).mask 2 0 = 2 := by
  refine ⟨by decide, by decide, by decide⟩

theorem checkForegroundPixel_record (k : CC) (g : Grid) (m : Mask)
    (i j rn : Nat) (l : VecList) :
    (¬i ≤ g.i_local_first ∧ 0 < m (i - 1) j →
      (checkForegroundPixel k g m i j rn l).1 = rn
      ∧ (checkForegroundPixel k g m i j rn l).2.lengths =
          l.lengths.set rn (l.lengths.getD rn 0 + 1)
      ∧ (checkForegroundPixel k g m i j rn l).2.i_vec = l.i_vec
      ∧ (checkForegroundPixel k g m i j rn l).2.j_vec = l.j_vec)
    ∧ (¬(¬i ≤ g.i_local_first ∧ 0 < m (i - 1) j) →
      (checkForegroundPixel k g m i j rn l).1 = rn + 1
      ∧ (checkForegroundPixel k g m i j rn l).2.lengths = l.lengths.set (rn + 1) 1
      ∧ (checkForegroundPixel k g m i j rn l).2.i_vec = l.i_vec.set (rn + 1) i
      ∧ (checkForegroundPixel k g m i j rn l).2.j_vec = l.j_vec.set (rn + 1) j) := by
  constructor
  · intro h1
    dsimp only [checkForegroundPixel, int_star]
    rw [if_pos h1]
    by_cases h2 : ¬j ≤ g.j_local_first ∧ 0 < m i (j - 1)
    · rw [if_pos h2]
      cases k with
      | base => exact ⟨rfl, rfl, rfl, rfl⟩
      | sink =>
        dsimp only [continueRun, mergeRuns, continueRunBase]
        split_ifs with hs <;> exact ⟨rfl, rfl, rfl, rfl⟩
    · rw [if_neg h2]
      cases k with
      | base => exact ⟨rfl, rfl, rfl, rfl⟩
      | sink =>
        dsimp only [continueRun, continueRunBase]
        split_ifs with hs <;> exact ⟨rfl, rfl, rfl, rfl⟩
  · intro h1
    dsimp only [checkForegroundPixel, int_star]
    rw [if_neg h1]
    by_cases h2 : ¬j ≤ g.j_local_first ∧ 0 < m i (j - 1)
    · rw [if_pos h2]
      cases k with
      | base => exact ⟨rfl, rfl, rfl, rfl⟩
      | sink =>
        dsimp only [startNewRun, mergeRuns, startNewRunBase]
        exact ⟨rfl, rfl, rfl, rfl⟩
    · rw [if_neg h2]
      cases k with
      | base => exact ⟨rfl, rfl, rfl, rfl⟩
      | sink =>
        dsimp only [startNewRun, startNewRunBase]
        exact ⟨rfl, rfl, rfl, rfl⟩

theorem CleanInv.toRec {fg : Nat → Nat → Bool} {g : Grid} {i j : Nat}
    {st : EngineState} (h : CleanInv fg g i j st) :
    RecInv fg g i j st.run_number st.lists st.mask :=
  ⟨h.rn_pos, h.nonfg, h.spanfg, h.west⟩

theorem updMask_ne (m : Mask) (i j v a b : Nat) (hne : ¬(a = i ∧ b = j)) :
    updMask m i j v a b = m a b := by
  unfold updMask
  rw [if_neg hne]

theorem updMask_self (m : Mask) (i j v : Nat) : updMask m i j v i j = v := by
  unfold updMask
  rw [if_pos ⟨rfl, rfl⟩]

theorem step_RecInv (k : CC) (fg : Nat → Nat → Bool) (g : Grid) (i j : Nat)
    {st : EngineState} (h : CleanInv fg g i j st) (hfg : fg i j = true) :
    RecInv fg g (i + 1) j (checkForegroundPixel k g st.mask i j st.run_number st.lists).1
      (checkForegroundPixel k g st.mask i j st.run_number st.lists).2
      (updMask st.mask i j (checkForegroundPixel k g st.mask i j st.run_number st.lists).1) := by
  have hrec := checkForegroundPixel_record k g st.mask i j st.run_number st.lists
  have hlenrn : st.run_number < st.lists.lengths.length := by
    have := h.cap
    have := h.llen
    omega
  have hnonfg : ∀ a b, fg a b = false →
      updMask st.mask i j (checkForegroundPixel k g st.mask i j st.run_number st.lists).1 a b = 0 := by
    intro a b hab
    rw [updMask_ne st.mask i j _ a b (by rintro ⟨rfl, rfl⟩; rw [hfg] at hab; cases hab)]
    exact h.nonfg a b hab
  by_cases h1 : ¬i ≤ g.i_local_first ∧ 0 < st.mask (i - 1) j
  · -- continuation of the current run
    have hwfg : fg (i - 1) j = true := by
      cases hbf : fg (i - 1) j with
      | false =>
        have := h.nonfg (i - 1) j hbf
        omega
      | true => rfl
    have hw := h.west h1.1 hwfg
    obtain ⟨hc1, hc2, hc3, hc4⟩ := hrec.1 h1
    refine ⟨?_, hnonfg, ?_, ?_⟩
    · rw [hc1]; exact h.rn_pos
    · rw [hc2, hc3, hc4]
      intro kk nn hnn
      by_cases hkk : kk = st.run_number
      · subst hkk
        rw [getD_set_self _ _ _ hlenrn] at hnn
        by_cases hlast : nn < st.lists.lengths.getD st.run_number 0
        · exact h.spanfg st.run_number nn hlast
        · have hnn' : nn = st.lists.lengths.getD st.run_number 0 := by omega
          rw [hnn', hw.2.2.2, hw.2.2.1]
          exact hfg
      · rw [getD_set_ne _ _ _ _ hkk] at hnn
        exact h.spanfg kk nn hnn
    · intro hiw hfw
      rw [hc1, hc2, hc3, hc4]
      refine ⟨hw.1, ?_, hw.2.2.1, ?_⟩
      · exact updMask_self st.mask i j st.run_number
      · rw [getD_set_self _ _ _ hlenrn]
        have := hw.2.2.2
        omega
  · -- a new run starts at (i, j)
    obtain ⟨hn1, hn2, hn3, hn4⟩ := hrec.2 h1
    have hlen1 : st.run_number + 1 < st.lists.lengths.length := by
      have := h.cap
      have := h.llen
      omega
    have hlen2 : st.run_number + 1 < st.lists.i_vec.length := by
      have := h.cap
      have := h.ilen
      omega
    have hlen3 : st.run_number + 1 < st.lists.j_vec.length := by
      have := h.cap
      have := h.jlen
      omega
    have hrnp := h.rn_pos
    refine ⟨?_, hnonfg, ?_, ?_⟩
    · rw [hn1]; omega
    · rw [hn2, hn3, hn4]
      intro kk nn hnn
      by_cases hkk : kk = st.run_number + 1
      · subst hkk
        rw [getD_set_self _ _ _ hlen1] at hnn
        have hnn0 : nn = 0 := by omega
        rw [hnn0, getD_set_self _ _ _ hlen2, getD_set_self _ _ _ hlen3]
        simpa using hfg
      · rw [getD_set_ne _ _ _ _ hkk] at hnn
        rw [getD_set_ne _ _ _ _ hkk, getD_set_ne _ _ _ _ hkk]
        exact h.spanfg kk nn hnn
    · intro hiw hfw
      rw [hn1, hn2, hn3, hn4]
      refine ⟨by omega, ?_, ?_, ?_⟩
      · exact updMask_self st.mask i j (st.run_number + 1)
      · exact getD_set_self _ _ _ hlen3
      · rw [getD_set_self _ _ _ hlen2, getD_set_self _ _ _ hlen1]

theorem RecInv_resize {fg : Nat → Nat → Bool} {g : Grid} {i j rn : Nat}
    {l : VecList} {m : Mask} (h : RecInv fg g i j rn l m) (mi : Nat)
    (hmi : rn < mi) : RecInv fg g i j rn (resizeLists l mi) m := by
  refine ⟨h.rn_pos, h.nonfg, ?_, ?_⟩
  · intro kk nn hnn
    dsimp only [resizeLists] at hnn ⊢
    rw [resizeRunVec_getD] at hnn
    by_cases hkk : kk < mi
    · rw [if_pos hkk] at hnn
      rw [resizeRunVec_getD, resizeRunVec_getD, if_pos hkk, if_pos hkk]
      exact h.spanfg kk nn hnn
    · rw [if_neg hkk] at hnn
      omega
  · intro hiw hfw
    have hw := h.west hiw hfw
    dsimp only [resizeLists]
    rw [resizeRunVec_getD, resizeRunVec_getD, resizeRunVec_getD,
      if_pos hmi, if_pos hmi, if_pos hmi]
    exact hw

theorem scanStep_CleanInv (k : CC) (fg : Nat → Nat → Bool) (g : Grid)
    (i j : Nat) {st : EngineState} (h : CleanInv fg g i j st)
    (hym : 1 ≤ g.j_local_last + 1 - g.j_local_first) :
    CleanInv fg g (i + 1) j (scanStep k fg g st (i, j)) := by
  cases hfg : fg i j with
  | false =>
    have hres : scanStep k fg g st (i, j) = st := by
      dsimp only [scanStep]
      rw [if_neg (by simp [hfg])]
    rw [hres]
    refine ⟨h.rn_pos, h.nonfg, h.spanfg, ?_, h.llen, h.ilen, h.jlen, h.cap⟩
    intro hiw hfw
    have : fg i j = true := by simpa using hfw
    rw [hfg] at this
    cases this
  | true =>
    have hrec := step_RecInv k fg g i j h hfg
    have hrecord := checkForegroundPixel_record k g st.mask i j st.run_number st.lists
    have hcfple : (checkForegroundPixel k g st.mask i j st.run_number st.lists).1 ≤
        st.run_number + 1 := by
      by_cases h1 : ¬i ≤ g.i_local_first ∧ 0 < st.mask (i - 1) j
      · rw [(hrecord.1 h1).1]; omega
      · rw [(hrecord.2 h1).1]
    have hL : (checkForegroundPixel k g st.mask i j st.run_number st.lists).2.lengths.length =
        st.lists.lengths.length := by
      by_cases h1 : ¬i ≤ g.i_local_first ∧ 0 < st.mask (i - 1) j
      · rw [(hrecord.1 h1).2.1, List.length_set]
      · rw [(hrecord.2 h1).2.1, List.length_set]
    have hI : (checkForegroundPixel k g st.mask i j st.run_number st.lists).2.i_vec.length =
        st.lists.i_vec.length := by
      by_cases h1 : ¬i ≤ g.i_local_first ∧ 0 < st.mask (i - 1) j
      · rw [(hrecord.1 h1).2.2.1]
      · rw [(hrecord.2 h1).2.2.1, List.length_set]
    have hJ : (checkForegroundPixel k g st.mask i j st.run_number st.lists).2.j_vec.length =
        st.lists.j_vec.length := by
      by_cases h1 : ¬i ≤ g.i_local_first ∧ 0 < st.mask (i - 1) j
      · rw [(hrecord.1 h1).2.2.2]
      · rw [(hrecord.2 h1).2.2.2, List.length_set]
    have hcap := h.cap
    dsimp only [scanStep]
    rw [if_pos (by simp [hfg])]
    by_cases hresz : st.max_items ≤
        (checkForegroundPixel k g st.mask i j st.run_number st.lists).1 + 1
    · rw [if_pos hresz]
      have hmi : (checkForegroundPixel k g st.mask i j st.run_number st.lists).1 <
          st.max_items + (g.j_local_last + 1 - g.j_local_first) := by omega
      have hrec2 := RecInv_resize hrec (st.max_items + (g.j_local_last + 1 - g.j_local_first)) hmi
      refine ⟨hrec2.rn_pos, hrec2.nonfg, hrec2.spanfg, hrec2.west, ?_, ?_, ?_, ?_⟩
      · exact resizeRunVec_length _ _
      · exact resizeRunVec_length _ _
      · exact resizeRunVec_length _ _
      · dsimp only
        omega
    · rw [if_neg hresz]
      refine ⟨hrec.rn_pos, hrec.nonfg, hrec.spanfg, hrec.west, ?_, ?_, ?_, ?_⟩
      · rw [hL, h.llen]
      · rw [hI, h.ilen]
      · rw [hJ, h.jlen]
      · dsimp only
        omega

theorem rowFold_CleanInv (k : CC) (fg : Nat → Nat → Bool) (g : Grid) (j : Nat)
    (hym : 1 ≤ g.j_local_last + 1 - g.j_local_first) :
    ∀ (n i : Nat) {st : EngineState}, CleanInv fg g i j st →
      CleanInv fg g (i + n) j
        ((List.range' i n).foldl (fun s a => scanStep k fg g s (a, j)) st) := by
  intro n
  induction n with
  | zero =>
    intro i st h
    simpa using h
  | succ m ih =>
    intro i st h
    rw [List.range'_succ, List.foldl_cons]
    have := ih (i + 1) (scanStep_CleanInv k fg g i j h hym)
    have heq : i + 1 + m = i + (m + 1) := by omega
    rwa [heq] at this

theorem CleanInv_newRow {fg : Nat → Nat → Bool} {g : Grid} {i j : Nat}
    {st : EngineState} (h : CleanInv fg g i j st) (j' : Nat) :
    CleanInv fg g g.i_local_first j' st := by
  refine ⟨h.rn_pos, h.nonfg, h.spanfg, ?_, h.llen, h.ilen, h.jlen, h.cap⟩
  intro hiw _
  exact absurd (le_refl g.i_local_first) hiw

theorem foldl_flatMap {α β γ : Type} (l : List α) (f : α → List β)
    (g : γ → β → γ) (init : γ) :
    (l.flatMap f).foldl g init = l.foldl (fun s x => (f x).foldl g s) init := by
  induction l generalizing init with
  | nil => rfl
  | cons x xs ih => simp only [List.flatMap_cons, List.foldl_append, List.foldl_cons, ih]

theorem scanAll_rows (k : CC) (fg : Nat → Nat → Bool) (g : Grid)
    (st0 : EngineState) :
    scanAll k fg g st0 =
      (List.range' g.j_local_first (g.j_local_last + 1 - g.j_local_first)).foldl
        (fun st j =>
          (List.range' g.i_local_first (g.i_local_last + 1 - g.i_local_first)).foldl
            (fun s a => scanStep k fg g s (a, j)) st)
        st0 := by
  unfold scanAll scanOrder
  rw [foldl_flatMap]
  congr 1
  funext st j
  rw [List.foldl_map]

theorem rowsFold_CleanInv (k : CC) (fg : Nat → Nat → Bool) (g : Grid)
    (hym : 1 ≤ g.j_local_last + 1 - g.j_local_first) :
    ∀ (nr j : Nat) {st : EngineState}, CleanInv fg g g.i_local_first j st →
      CleanInv fg g g.i_local_first (j + nr)
        ((List.range' j nr).foldl
          (fun st jj =>
            (List.range' g.i_local_first (g.i_local_last + 1 - g.i_local_first)).foldl
              (fun s a => scanStep k fg g s (a, jj)) st)
          st) := by
  intro nr
  induction nr with
  | zero =>
    intro j st h
    simpa using h
  | succ m ih =>
    intro j st h
    rw [List.range'_succ, List.foldl_cons]
    have hrow := rowFold_CleanInv k fg g j hym
      (g.i_local_last + 1 - g.i_local_first) g.i_local_first h
    have := ih (j + 1) (CleanInv_newRow hrow (j + 1))
    have heq : j + 1 + m = j + (m + 1) := by omega
    rwa [heq] at this

theorem initVec_length (cap : Nat) :
    (((List.replicate cap 0).set 0 0).set 1 0).length = cap := by
  simp

theorem CleanInv_init (fg : Nat → Nat → Bool) (g : Grid) (cap : Nat) (m0 : Mask)
    (hclean : ∀ a b, fg a b = false → m0 a b = 0) (hcap : 2 < cap) :
    CleanInv fg g g.i_local_first g.j_local_first ⟨m0, 1, init_VecList cap, cap⟩ := by
  refine ⟨le_refl 1, hclean, ?_, ?_, ?_, ?_, ?_, ?_⟩
  · intro kk nn hnn
    have h0 : (init_VecList cap).lengths.getD kk 0 = 0 := init_VecList_parents_getD cap kk
    dsimp only at hnn
    rw [h0] at hnn
    omega
  · intro hiw _
    exact absurd (le_refl g.i_local_first) hiw
  · exact initVec_length cap
  · exact initVec_length cap
  · exact initVec_length cap
  · dsimp only
    omega

/-! ## Frame lemmas for labelMask -/

theorem labelRun_frame (lists : VecList) (kk : Nat) :
    ∀ (ns : List Nat) (m : Mask) (a b : Nat),
      (∀ nn, nn ∈ ns → ¬(a = lists.i_vec.getD kk 0 + nn ∧ b = lists.j_vec.getD kk 0)) →
      (ns.foldl
        (fun mm n => updMask mm (lists.i_vec.getD kk 0 + n) (lists.j_vec.getD kk 0)
          (trackParentRun kk lists.parents)) m) a b = m a b := by
  intro ns
  induction ns with
  | nil =>
    intro m a b _
    rfl
  | cons n ns ih =>
    intro m a b h
    rw [List.foldl_cons, ih _ a b (fun nn hnn => h nn (List.mem_cons_of_mem n hnn))]
    exact updMask_ne _ _ _ _ a b (h n (List.mem_cons_self n ns))

theorem labelRun_frame_cell (lists : VecList) (m : Mask) (kk a b : Nat)
    (h : ∀ nn, nn < lists.lengths.getD kk 0 →
      ¬(a = lists.i_vec.getD kk 0 + nn ∧ b = lists.j_vec.getD kk 0)) :
    labelRun lists m kk a b = m a b :=
  labelRun_frame lists kk (List.range (lists.lengths.getD kk 0)) m a b
    (fun nn hnn => h nn (List.mem_range.mp hnn))

theorem labelMask_frame (rn : Nat) (lists : VecList) (m : Mask) (a b : Nat)
    (h : ∀ kk nn, nn < lists.lengths.getD kk 0 →
      ¬(a = lists.i_vec.getD kk 0 + nn ∧ b = lists.j_vec.getD kk 0)) :
    labelMask rn lists m a b = m a b := by
  unfold labelMask
  generalize List.range (rn + 1) = ks
  induction ks generalizing m with
  | nil => rfl
  | cons kk ks ih =>
    rw [List.foldl_cons, ih (labelRun lists m kk)]
    exact labelRun_frame_cell lists m kk a b (h kk)

/-! ## Claim C10 -/

theorem invoke_clean_frame (k : CC)
    (fg : Nat → Nat → Bool) (g : Grid) (cap : Nat) (m0 : Mask)
    (hclean : ∀ a b, fg a b = false → m0 a b = 0) (hcap : 2 < cap)
    (hym : 1 ≤ g.j_local_last + 1 - g.j_local_first) :
    ∀ a b, fg a b = false → (invoke k fg g cap m0).mask a b = m0 a b := by
  intro a b hab
  have hscan : CleanInv fg g g.i_local_first
      (g.j_local_first + (g.j_local_last + 1 - g.j_local_first))
      (scanAll k fg g ⟨m0, 1, init_VecList cap, cap⟩) := by
    rw [scanAll_rows]
    exact rowsFold_CleanInv k fg g hym _ g.j_local_first
      (CleanInv_init fg g cap m0 hclean hcap)
  have hcell : ∀ kk nn,
      nn < (scanAll k fg g ⟨m0, 1, init_VecList cap, cap⟩).lists.lengths.getD kk 0 →
      ¬(a = (scanAll k fg g ⟨m0, 1, init_VecList cap, cap⟩).lists.i_vec.getD kk 0 + nn ∧
        b = (scanAll k fg g ⟨m0, 1, init_VecList cap, cap⟩).lists.j_vec.getD kk 0) := by
    rintro kk nn hnn ⟨rfl, rfl⟩
    have := hscan.spanfg kk nn hnn
    rw [this] at hab
    cases hab
  show labelMask (scanAll k fg g ⟨m0, 1, init_VecList cap, cap⟩).run_number
      (scanAll k fg g ⟨m0, 1, init_VecList cap, cap⟩).lists
      (labelMask (scanAll k fg g ⟨m0, 1, init_VecList cap, cap⟩).run_number
        (scanAll k fg g ⟨m0, 1, init_VecList cap, cap⟩).lists
        (scanAll k fg g ⟨m0, 1, init_VecList cap, cap⟩).mask) a b = m0 a b
  rw [labelMask_frame _ _ _ a b hcell, labelMask_frame _ _ _ a b hcell]
  rw [hscan.nonfg a b hab, hclean a b hab]

/-- C10 (amended): for an invocation whose initial raster holds 0 at every
cell failing the foreground predicate, the label raster is written only at
cells of recorded runs — all of which satisfy the predicate — so every
non-foreground cell retains its initial value. -/
theorem C10_background_cells_untouched_on_clean_input (k : CC)
    (fg : Nat → Nat → Bool) (g : Grid) (cap : Nat) (m0 : Mask)
    (hclean : ∀ a b, fg a b = false → m0 a b = 0) (hcap : 2 < cap)
    (hym : 1 ≤ g.j_local_last + 1 - g.j_local_first) :
    ∀ a b, fg a b = false → (invoke k fg g cap m0).mask a b = m0 a b :=
  invoke_clean_frame k fg g cap m0 hclean hcap hym

/-- C10 witness: at the concrete staircase scenario (3×3 domain, all-zero
initial raster), the non-foreground cell (1,0) keeps its value. -/
theorem C10_witness :
    (invoke CC.base fgStairs (fullGrid 3 3) 20 zeroMask).mask 1 0 = zeroMask 1 0 :=
  C10_background_cells_untouched_on_clean_input CC.base fgStairs (fullGrid 3 3) 20
    zeroMask (fun _ _ _ => rfl) (by omega) (by decide) 1 0 (by decide)

/-! ## Lockstep of two scans over the same foreground pattern

The base-class scan reads the raster only at the guarded west and south
neighbours of the cell being processed; the sink test does not exist in the
base class.  Two invocations whose rasters agree on every already-scanned cell
and hold 0 on every non-foreground cell therefore make identical decisions. -/

theorem cfp_base_mask_congr (g : Grid) (m1 m2 : Mask) (i j rn : Nat)
    (l : VecList)
    (hw : ¬i ≤ g.i_local_first → m1 (i - 1) j = m2 (i - 1) j)
    (hs : ¬j ≤ g.j_local_first → m1 i (j - 1) = m2 i (j - 1)) :
    checkForegroundPixel CC.base g m1 i j rn l =
      checkForegroundPixel CC.base g m2 i j rn l := by
  dsimp only [checkForegroundPixel, int_star, startNewRun, continueRun]
  by_cases hW : i ≤ g.i_local_first
  · have nW1 : ¬(¬i ≤ g.i_local_first ∧ 0 < m1 (i - 1) j) := fun hc => hc.1 hW
    have nW2 : ¬(¬i ≤ g.i_local_first ∧ 0 < m2 (i - 1) j) := fun hc => hc.1 hW
    by_cases hS : j ≤ g.j_local_first
    · have nS1 : ¬(¬j ≤ g.j_local_first ∧ 0 < m1 i (j - 1)) := fun hc => hc.1 hS
      have nS2 : ¬(¬j ≤ g.j_local_first ∧ 0 < m2 i (j - 1)) := fun hc => hc.1 hS
      simp only [if_neg nW1, if_neg nW2, if_neg nS1, if_neg nS2]
    · rw [hs hS]
      simp only [if_neg nW1, if_neg nW2]
  · rw [hw hW]
    by_cases hS : j ≤ g.j_local_first
    · have nS1 : ¬(¬j ≤ g.j_local_first ∧ 0 < m1 i (j - 1)) := fun hc => hc.1 hS
      have nS2 : ¬(¬j ≤ g.j_local_first ∧ 0 < m2 i (j - 1)) := fun hc => hc.1 hS
      simp only [if_neg nS1, if_neg nS2]
    · rw [hs hS]

theorem Vis_mono {g : Grid} {i j a b : Nat} (h : Vis g i j a b) :
    Vis g (i + 1) j a b := by
  obtain ⟨h1, h2, h3, h4⟩ := h
  exact ⟨h1, h2, h3, by omega⟩

theorem Vis_succ_elim {g : Grid} {i j a b : Nat} (h : Vis g (i + 1) j a b) :
    Vis g i j a b ∨ (a = i ∧ b = j) := by
  obtain ⟨h1, h2, h3, h4⟩ := h
  by_cases hab : a = i ∧ b = j
  · exact Or.inr hab
  · refine Or.inl ⟨h1, h2, h3, ?_⟩
    rcases h4 with h4 | ⟨rfl, h5⟩
    · exact Or.inl h4
    · right
      refine ⟨rfl, ?_⟩
      rcases Nat.lt_or_ge a i with h6 | h6
      · exact h6
      · exact absurd ⟨by omega, rfl⟩ hab

theorem scanStep_fg_eq (fg : Nat → Nat → Bool) (g : Grid) (i j : Nat)
    (hfg : fg i j = true) (st : EngineState) :
    scanStep CC.base fg g st (i, j) =
      if st.max_items ≤
          (checkForegroundPixel CC.base g st.mask i j st.run_number st.lists).1 + 1 then
        ⟨updMask st.mask i j (checkForegroundPixel CC.base g st.mask i j st.run_number st.lists).1,
          (checkForegroundPixel CC.base g st.mask i j st.run_number st.lists).1,
          resizeLists (checkForegroundPixel CC.base g st.mask i j st.run_number st.lists).2
            (st.max_items + (g.j_local_last + 1 - g.j_local_first)),
          st.max_items + (g.j_local_last + 1 - g.j_local_first)⟩
      else
        ⟨updMask st.mask i j (checkForegroundPixel CC.base g st.mask i j st.run_number st.lists).1,
          (checkForegroundPixel CC.base g st.mask i j st.run_number st.lists).1,
          (checkForegroundPixel CC.base g st.mask i j st.run_number st.lists).2,
          st.max_items⟩ := by
  dsimp only [scanStep]
  rw [if_pos hfg]

theorem scanStep_nfg_eq (fg : Nat → Nat → Bool) (g : Grid) (k : CC) (i j : Nat)
    (hfg : fg i j = false) (st : EngineState) :
    scanStep k fg g st (i, j) = st := by
  dsimp only [scanStep]
  rw [if_neg (by rw [hfg]; exact Bool.false_ne_true)]

theorem scanStep_LockRel (fg : Nat → Nat → Bool) (g : Grid) (m m' : Mask)
    (hm : ∀ a b, fg a b = false → m a b = 0)
    (hm' : ∀ a b, fg a b = false → m' a b = 0) (i j : Nat)
    (hi1 : g.i_local_first ≤ i) (hi2 : i ≤ g.i_local_last)
    (hj1 : g.j_local_first ≤ j) {st1 st2 : EngineState}
    (h : LockRel fg g m m' i j st1 st2) :
    LockRel fg g m m' (i + 1) j (scanStep CC.base fg g st1 (i, j))
      (scanStep CC.base fg g st2 (i, j)) := by
  cases hfg : fg i j with
  | false =>
    rw [scanStep_nfg_eq fg g CC.base i j hfg st1, scanStep_nfg_eq fg g CC.base i j hfg st2]
    refine ⟨h.rn, h.lists, h.mx, ?_, ?_, ?_⟩
    · intro a b hvis hf
      rcases Vis_succ_elim hvis with hv | ⟨rfl, rfl⟩
      · exact h.maskeq a b hv hf
      · rw [hfg] at hf
        cases hf
    · intro a b hun
      refine h.un1 a b ?_
      rcases hun with hun | hun
      · exact Or.inl (fun hv => hun (Vis_mono hv))
      · exact Or.inr hun
    · intro a b hun
      refine h.un2 a b ?_
      rcases hun with hun | hun
      · exact Or.inl (fun hv => hun (Vis_mono hv))
      · exact Or.inr hun
  | true =>
    have hwvis : ¬i ≤ g.i_local_first → Vis g i j (i - 1) j :=
      fun hiw => ⟨by omega, by omega, hj1, Or.inr ⟨rfl, by omega⟩⟩
    have hsvis : ¬j ≤ g.j_local_first → Vis g i j i (j - 1) :=
      fun hjs => ⟨hi1, hi2, by omega, Or.inl (by omega)⟩
    have hweq : ¬i ≤ g.i_local_first → st1.mask (i - 1) j = st2.mask (i - 1) j := by
      intro hiw
      cases hbf : fg (i - 1) j with
      | false =>
        rw [h.un1 (i - 1) j (Or.inr hbf), h.un2 (i - 1) j (Or.inr hbf),
          hm (i - 1) j hbf, hm' (i - 1) j hbf]
      | true => exact h.maskeq (i - 1) j (hwvis hiw) hbf
    have hseq : ¬j ≤ g.j_local_first → st1.mask i (j - 1) = st2.mask i (j - 1) := by
      intro hjs
      cases hbf : fg i (j - 1) with
      | false =>
        rw [h.un1 i (j - 1) (Or.inr hbf), h.un2 i (j - 1) (Or.inr hbf),
          hm i (j - 1) hbf, hm' i (j - 1) hbf]
      | true => exact h.maskeq i (j - 1) (hsvis hjs) hbf
    have hcfp : checkForegroundPixel CC.base g st2.mask i j st2.run_number st2.lists =
        checkForegroundPixel CC.base g st1.mask i j st1.run_number st1.lists := by
      rw [← h.rn, ← h.lists]
      exact (cfp_base_mask_congr g st1.mask st2.mask i j st1.run_number st1.lists
        hweq hseq).symm
    have hmaskeq' : ∀ a b, Vis g (i + 1) j a b → fg a b = true →
        updMask st1.mask i j (checkForegroundPixel CC.base g st1.mask i j st1.run_number st1.lists).1 a b =
        updMask st2.mask i j (checkForegroundPixel CC.base g st1.mask i j st1.run_number st1.lists).1 a b := by
      intro a b hvis hf
      by_cases hab : a = i ∧ b = j
      · obtain ⟨rfl, rfl⟩ := hab
        rw [updMask_self, updMask_self]
      · rw [updMask_ne _ _ _ _ _ _ hab, updMask_ne _ _ _ _ _ _ hab]
        rcases Vis_succ_elim hvis with hv | hv
        · exact h.maskeq a b hv hf
        · exact absurd hv hab
    have hun1' : ∀ a b, ¬Vis g (i + 1) j a b ∨ fg a b = false →
        updMask st1.mask i j (checkForegroundPixel CC.base g st1.mask i j st1.run_number st1.lists).1 a b =
        m a b := by
      intro a b hun
      have hne : ¬(a = i ∧ b = j) := by
        rintro ⟨rfl, rfl⟩
        rcases hun with hun | hun
        · exact hun ⟨hi1, hi2, hj1, Or.inr ⟨rfl, by omega⟩⟩
        · rw [hfg] at hun
          cases hun
      rw [updMask_ne _ _ _ _ _ _ hne]
      refine h.un1 a b ?_
      rcases hun with hun | hun
      · exact Or.inl (fun hv => hun (Vis_mono hv))
      · exact Or.inr hun
    have hun2' : ∀ a b, ¬Vis g (i + 1) j a b ∨ fg a b = false →
        updMask st2.mask i j (checkForegroundPixel CC.base g st1.mask i j st1.run_number st1.lists).1 a b =
        m' a b := by
      intro a b hun
      have hne : ¬(a = i ∧ b = j) := by
        rintro ⟨rfl, rfl⟩
        rcases hun with hun | hun
        · exact hun ⟨hi1, hi2, hj1, Or.inr ⟨rfl, by omega⟩⟩
        · rw [hfg] at hun
          cases hun
      rw [updMask_ne _ _ _ _ _ _ hne]
      refine h.un2 a b ?_
      rcases hun with hun | hun
      · exact Or.inl (fun hv => hun (Vis_mono hv))
      · exact Or.inr hun
    rw [scanStep_fg_eq fg g i j hfg st1, scanStep_fg_eq fg g i j hfg st2,
      hcfp, ← h.mx]
    by_cases hresz : st1.max_items ≤
        (checkForegroundPixel CC.base g st1.mask i j st1.run_number st1.lists).1 + 1
    · rw [if_pos hresz, if_pos hresz]
      exact ⟨rfl, rfl, rfl, hmaskeq', hun1', hun2'⟩
    · rw [if_neg hresz, if_neg hresz]
      exact ⟨rfl, rfl, rfl, hmaskeq', hun1', hun2'⟩

theorem rowFold_LockRel (fg : Nat → Nat → Bool) (g : Grid) (m m' : Mask)
    (hm : ∀ a b, fg a b = false → m a b = 0)
    (hm' : ∀ a b, fg a b = false → m' a b = 0) (j : Nat)
    (hj1 : g.j_local_first ≤ j) :
    ∀ (n i : Nat), i + n ≤ g.i_local_last + 1 → g.i_local_first ≤ i →
      ∀ {st1 st2 : EngineState}, LockRel fg g m m' i j st1 st2 →
      LockRel fg g m m' (i + n) j
        ((List.range' i n).foldl (fun s a => scanStep CC.base fg g s (a, j)) st1)
        ((List.range' i n).foldl (fun s a => scanStep CC.base fg g s (a, j)) st2) := by
  intro n
  induction n with
  | zero =>
    intro i _ _ st1 st2 h
    simpa using h
  | succ mm ih =>
    intro i hub hi1 st1 st2 h
    rw [List.range'_succ, List.foldl_cons, List.foldl_cons]
    have hstep := scanStep_LockRel fg g m m' hm hm' i j hi1 (by omega) hj1 h
    have := ih (i + 1) (by omega) (by omega) hstep
    have heq : i + 1 + mm = i + (mm + 1) := by omega
    rwa [heq] at this

theorem LockRel_newRow {fg : Nat → Nat → Bool} {g : Grid} {m m' : Mask}
    {i j : Nat} {st1 st2 : EngineState} (h : LockRel fg g m m' i j st1 st2)
    (hcover : g.i_local_last < i) :
    LockRel fg g m m' g.i_local_first (j + 1) st1 st2 := by
  refine ⟨h.rn, h.lists, h.mx, ?_, ?_, ?_⟩
  · intro a b hvis hf
    refine h.maskeq a b ?_ hf
    obtain ⟨h1, h2, h3, h4⟩ := hvis
    refine ⟨h1, h2, h3, ?_⟩
    rcases h4 with h4 | ⟨rfl, h5⟩
    · by_cases hbj : b = j
      · exact Or.inr ⟨hbj, by omega⟩
      · exact Or.inl (by omega)
    · exact absurd h5 (by omega)
  · intro a b hun
    refine h.un1 a b ?_
    rcases hun with hun | hun
    · refine Or.inl (fun hv => hun ?_)
      obtain ⟨h1, h2, h3, h4⟩ := hv
      exact ⟨h1, h2, h3, Or.inl (by omega)⟩
    · exact Or.inr hun
  · intro a b hun
    refine h.un2 a b ?_
    rcases hun with hun | hun
    · refine Or.inl (fun hv => hun ?_)
      obtain ⟨h1, h2, h3, h4⟩ := hv
      exact ⟨h1, h2, h3, Or.inl (by omega)⟩
    · exact Or.inr hun

theorem rowsFold_LockRel (fg : Nat → Nat → Bool) (g : Grid) (m m' : Mask)
    (hm : ∀ a b, fg a b = false → m a b = 0)
    (hm' : ∀ a b, fg a b = false → m' a b = 0)
    (hxi : g.i_local_first ≤ g.i_local_last) :
    ∀ (nr j : Nat), g.j_local_first ≤ j →
      ∀ {st1 st2 : EngineState}, LockRel fg g m m' g.i_local_first j st1 st2 →
      LockRel fg g m m' g.i_local_first (j + nr)
        ((List.range' j nr).foldl
          (fun st jj =>
            (List.range' g.i_local_first (g.i_local_last + 1 - g.i_local_first)).foldl
              (fun s a => scanStep CC.base fg g s (a, jj)) st)
          st1)
        ((List.range' j nr).foldl
          (fun st jj =>
            (List.range' g.i_local_first (g.i_local_last + 1 - g.i_local_first)).foldl
              (fun s a => scanStep CC.base fg g s (a, jj)) st)
          st2) := by
  intro nr
  induction nr with
  | zero =>
    intro j _ st1 st2 h
    simpa using h
  | succ mm ih =>
    intro j hj1 st1 st2 h
    rw [List.range'_succ, List.foldl_cons, List.foldl_cons]
    have hrow := rowFold_LockRel fg g m m' hm hm' j hj1
      (g.i_local_last + 1 - g.i_local_first) g.i_local_first (by omega) (le_refl _) h
    have hnew := LockRel_newRow hrow (by omega)
    have := ih (j + 1) (by omega) hnew
    have heq : j + 1 + mm = j + (mm + 1) := by omega
    rwa [heq] at this

theorem LockRel_init (fg : Nat → Nat → Bool) (g : Grid) (m m' : Mask)
    (cap : Nat) :
    LockRel fg g m m' g.i_local_first g.j_local_first
      ⟨m, 1, init_VecList cap, cap⟩ ⟨m', 1, init_VecList cap, cap⟩ := by
  refine ⟨rfl, rfl, rfl, ?_, fun a b _ => rfl, fun a b _ => rfl⟩
  intro a b hvis _
  obtain ⟨h1, h2, h3, h4⟩ := hvis
  rcases h4 with h4 | ⟨rfl, h5⟩
  · exact absurd h4 (by omega)
  · exact absurd h5 (by omega)

/-! ## The labelMask write set depends only on the run arrays -/

theorem updFold_det (lists : VecList) (kk : Nat) :
    ∀ (ns : List Nat) (x y : Mask) (a b : Nat),
      (ns.foldl (fun mm n => updMask mm (lists.i_vec.getD kk 0 + n)
        (lists.j_vec.getD kk 0) (trackParentRun kk lists.parents)) x) a b =
        (ns.foldl (fun mm n => updMask mm (lists.i_vec.getD kk 0 + n)
          (lists.j_vec.getD kk 0) (trackParentRun kk lists.parents)) y) a b ∨
      ((ns.foldl (fun mm n => updMask mm (lists.i_vec.getD kk 0 + n)
          (lists.j_vec.getD kk 0) (trackParentRun kk lists.parents)) x) a b = x a b ∧
        (ns.foldl (fun mm n => updMask mm (lists.i_vec.getD kk 0 + n)
          (lists.j_vec.getD kk 0) (trackParentRun kk lists.parents)) y) a b = y a b) := by
  intro ns
  induction ns with
  | nil =>
    intro x y a b
    exact Or.inr ⟨rfl, rfl⟩
  | cons n ns ih =>
    intro x y a b
    rw [List.foldl_cons, List.foldl_cons]
    rcases ih (updMask x (lists.i_vec.getD kk 0 + n) (lists.j_vec.getD kk 0)
        (trackParentRun kk lists.parents))
      (updMask y (lists.i_vec.getD kk 0 + n) (lists.j_vec.getD kk 0)
        (trackParentRun kk lists.parents)) a b with h | ⟨e1, e2⟩
    · exact Or.inl h
    · rw [e1, e2]
      by_cases hab : a = lists.i_vec.getD kk 0 + n ∧ b = lists.j_vec.getD kk 0
      · obtain ⟨rfl, rfl⟩ := hab
        rw [updMask_self, updMask_self]
        exact Or.inl rfl
      · rw [updMask_ne _ _ _ _ _ _ hab, updMask_ne _ _ _ _ _ _ hab]
        exact Or.inr ⟨rfl, rfl⟩

theorem labelRun_det (lists : VecList) (x y : Mask) (kk a b : Nat) :
    labelRun lists x kk a b = labelRun lists y kk a b ∨
      (labelRun lists x kk a b = x a b ∧ labelRun lists y kk a b = y a b) :=
  updFold_det lists kk (List.range (lists.lengths.getD kk 0)) x y a b

theorem labelMask_det (rn : Nat) (lists : VecList) :
    ∀ (x y : Mask) (a b : Nat),
      labelMask rn lists x a b = labelMask rn lists y a b ∨
        (labelMask rn lists x a b = x a b ∧ labelMask rn lists y a b = y a b) := by
  unfold labelMask
  generalize List.range (rn + 1) = ks
  induction ks with
  | nil =>
    intro x y a b
    exact Or.inr ⟨rfl, rfl⟩
  | cons kk ks ih =>
    intro x y a b
    rw [List.foldl_cons, List.foldl_cons]
    rcases ih (labelRun lists x kk) (labelRun lists y kk) a b with h | ⟨e1, e2⟩
    · exact Or.inl h
    · rw [e1, e2]
      exact labelRun_det lists x y kk a b

theorem invoke_mask_eq (k : CC) (fg : Nat → Nat → Bool) (g : Grid) (cap : Nat)
    (m0 : Mask) :
    (invoke k fg g cap m0).mask =
      labelMask (scanInit k fg g cap m0).run_number (scanInit k fg g cap m0).lists
        (labelMask (scanInit k fg g cap m0).run_number (scanInit k fg g cap m0).lists
          (scanInit k fg g cap m0).mask) := rfl

/-! ## Claim C8 -/

/-- C8 (amended): provided the input raster of the first invocation holds 0 at
every cell failing the foreground predicate, re-invoking the base engine on
the converged raster with the same predicate changes no label: the second scan
reads the raster only at previously-scanned cells (where the two runs agree)
and at non-foreground cells (0 in both runs), so it rebuilds the identical run
arrays, and label resolution rewrites exactly the labels already present. -/
theorem C8_idempotent_on_clean_input (fg : Nat → Nat → Bool) (g : Grid)
    (cap : Nat) (m0 : Mask)
    (hclean : ∀ a b, fg a b = false → m0 a b = 0) (hcap : 2 < cap)
    (hxi : g.i_local_first ≤ g.i_local_last)
    (hxj : g.j_local_first ≤ g.j_local_last) :
    ∀ a b,
      (invoke CC.base fg g cap ((invoke CC.base fg g cap m0).mask)).mask a b =
        (invoke CC.base fg g cap m0).mask a b := by
  intro a b
  have hym : 1 ≤ g.j_local_last + 1 - g.j_local_first := by omega
  have hM1 : ∀ x y, fg x y = false → (invoke CC.base fg g cap m0).mask x y = 0 := by
    intro x y hxy
    rw [invoke_clean_frame CC.base fg g cap m0 hclean hcap hym x y hxy]
    exact hclean x y hxy
  have hlock : LockRel fg g m0 ((invoke CC.base fg g cap m0).mask)
      g.i_local_first (g.j_local_first + (g.j_local_last + 1 - g.j_local_first))
      (scanInit CC.base fg g cap m0)
      (scanInit CC.base fg g cap ((invoke CC.base fg g cap m0).mask)) := by
    unfold scanInit
    rw [scanAll_rows, scanAll_rows]
    exact rowsFold_LockRel fg g m0 ((invoke CC.base fg g cap m0).mask) hclean hM1
      hxi (g.j_local_last + 1 - g.j_local_first) g.j_local_first (le_refl _)
      (LockRel_init fg g m0 ((invoke CC.base fg g cap m0).mask) cap)
  rw [invoke_mask_eq CC.base fg g cap ((invoke CC.base fg g cap m0).mask),
    ← hlock.rn, ← hlock.lists]
  rcases labelMask_det (scanInit CC.base fg g cap m0).run_number
      (scanInit CC.base fg g cap m0).lists
      (labelMask (scanInit CC.base fg g cap m0).run_number
        (scanInit CC.base fg g cap m0).lists
        (scanInit CC.base fg g cap ((invoke CC.base fg g cap m0).mask)).mask)
      (labelMask (scanInit CC.base fg g cap m0).run_number
        (scanInit CC.base fg g cap m0).lists
        (scanInit CC.base fg g cap m0).mask) a b with h1 | ⟨e1, e2⟩
  · rw [h1, invoke_mask_eq CC.base fg g cap m0]
  · rw [e1]
    rcases labelMask_det (scanInit CC.base fg g cap m0).run_number
        (scanInit CC.base fg g cap m0).lists
        (scanInit CC.base fg g cap ((invoke CC.base fg g cap m0).mask)).mask
        (scanInit CC.base fg g cap m0).mask a b with h2 | ⟨e3, e4⟩
    · rw [h2, invoke_mask_eq CC.base fg g cap m0, e2]
    · rw [e3]
      by_cases hv : Vis g g.i_local_first
          (g.j_local_first + (g.j_local_last + 1 - g.j_local_first)) a b ∧
          fg a b = true
      · rw [← hlock.maskeq a b hv.1 hv.2, invoke_mask_eq CC.base fg g cap m0, e2, e4]
      · refine hlock.un2 a b ?_
        cases hf : fg a b with
        | false => exact Or.inr rfl
        | true => exact Or.inl (fun hvv => hv ⟨hvv, hf⟩)

/-- C8 witness: at the concrete staircase scenario, re-invocation leaves the
label of cell (2,2) unchanged. -/
theorem C8_witness :
    (invoke CC.base fgStairs (fullGrid 3 3) 20
      ((invoke CC.base fgStairs (fullGrid 3 3) 20 zeroMask).mask)).mask 2 2 =
    (invoke CC.base fgStairs (fullGrid 3 3) 20 zeroMask).mask 2 2 :=
  C8_idempotent_on_clean_input fgStairs (fullGrid 3 3) 20 zeroMask
    (fun _ _ _ => rfl) (by omega) (by decide) (by decide) 2 2

/-- Any positive fuel gives the reconciliation loop the same result, since
`updateRunsAtBoundaries` reports `false` in its first executed statement: the
loop body runs exactly once. -/
theorem boundaryLoop_fuel_irrelevant (rn : Nat) (lists : VecList) (m : Mask)
    (fuel : Nat) :
    boundaryLoop rn (fuel + 1) lists m = labelMask rn lists m := rfl
